import Mathlib

/-!
# Verification of the handwriting-grid segmentation core

Shallow embedding of the repository's geometric segmentation stage:
the row manager (`src/rows_manager/__init__.py`) and the Voronoi cell
graph (`src/voronoi_tessellation/__init__.py`).

Conventions of the embedding:
* Python floats are modelled as real numbers `ℝ`; real division is total
  with `x / 0 = 0` (the Lean convention), noted at each place where the
  Python code can actually divide by zero.
* The geometry helper module `lib` and the `config` module are part of the
  repository but are not among the provided sources; each helper is
  modelled from the specification (§4.1) and marked `Modelled from the
  spec:` in its doc comment.  The configuration value `NEW_ROW_ANGLE` is a
  parameter `cfg` of the embedded `process`.
* Python's mutable objects are modelled by value passing; the aliasing in
  the source (row vectors shared with the manager's list) is benign for
  every function modelled here because each shared object is only read
  through one path after any mutation.
* Fallible Python code (raising exceptions) is modelled with
  `Option`/`Except`.
-/

namespace Thesis

noncomputable section

/-- A 2-D point, `lib.Dot`: an (x, y) pair of (real-modelled) floats. -/
abbrev Dot : Type := ℝ × ℝ

/-- `lib.Vector`: an ordered pair of dots.  (`end` is a Lean keyword, so the
field is named `end_`.) -/
structure Vec where
  begin : Dot
  end_ : Dot

/-- x-component of a vector's direction. -/
def vecDx (v : Vec) : ℝ := v.end_.1 - v.begin.1

/-- y-component of a vector's direction. -/
def vecDy (v : Vec) : ℝ := v.end_.2 - v.begin.2

/-- Modelled from the spec: `distance_between(a, b)` — Euclidean distance
(§4.1; the `lib` module is not among the provided sources). -/
def get_dist_between_dots (a b : Dot) : ℝ :=
  Real.sqrt ((a.1 - b.1) ^ 2 + (a.2 - b.2) ^ 2)

/-- Modelled from the spec: `angle_cosine(v1, v2)` (`lib.get_angle_between_vectors`)
— cosine of the angle between two vectors via dot product over magnitudes
(§4.1).  For a zero-length vector the Python contract is violated; the real
model yields `0` there (division by zero). -/
def get_angle_between_vectors (v1 v2 : Vec) : ℝ :=
  (vecDx v1 * vecDx v2 + vecDy v1 * vecDy v2) /
    (get_dist_between_dots v1.begin v1.end_ * get_dist_between_dots v2.begin v2.end_)

/-- Modelled from the spec: `perpendicular_distance(point, line_begin, line_end)`
(`lib.get_dist_to_straight`) — exact point-to-infinite-line distance (§4.1). -/
def get_dist_to_straight (p b e : Dot) : ℝ :=
  |(e.1 - b.1) * (p.2 - b.2) - (e.2 - b.2) * (p.1 - b.1)| / get_dist_between_dots b e

/-- Modelled from the spec: `triangle_area(a, b, c)` (`lib.get_triangle_square`)
— absolute area via the shoelace formula (§4.1: "consumers only need absolute
values"). -/
def get_triangle_square (a b c : Dot) : ℝ :=
  |a.1 * (b.2 - c.2) + b.1 * (c.2 - a.2) + c.1 * (a.2 - b.2)| / 2

/-- Modelled from the spec: `line_intersection` — intersection point of two
lines each given as two points; fails (`none`) for parallel lines (§4.1). -/
def line_intersection (l1 l2 : Dot × Dot) : Option Dot :=
  let p1 := l1.1; let p2 := l1.2; let p3 := l2.1; let p4 := l2.2
  let d := (p1.1 - p2.1) * (p3.2 - p4.2) - (p1.2 - p2.2) * (p3.1 - p4.1)
  if d = 0 then none
  else
    let a := p1.1 * p2.2 - p1.2 * p2.1
    let b := p3.1 * p4.2 - p3.2 * p4.1
    some ((a * (p3.1 - p4.1) - (p1.1 - p2.1) * b) / d,
          (a * (p3.2 - p4.2) - (p1.2 - p2.2) * b) / d)

/-! ## Voronoi cell graph (`src/voronoi_tessellation/__init__.py`) -/

/-- Modelled from `numpy.linalg.lstsq` on the 2×2 system fitting `y = m·x + c`
through two points (the call in `CellNeighbor.__post_init__`): for distinct
x-coordinates the fit is exact; for equal x-coordinates the matrix is rank
deficient and `lstsq` returns the minimum-norm least-squares solution
`(m, c) = ȳ/(x² + 1) · (x, 1)` where `ȳ` is the mean of the two y values. -/
def lstsqFit (p1 p2 : Dot) : ℝ × ℝ :=
  if p1.1 = p2.1 then
    let yb := (p1.2 + p2.2) / 2
    (p1.1 * yb / (p1.1 ^ 2 + 1), yb / (p1.1 ^ 2 + 1))
  else
    let m := (p2.2 - p1.2) / (p2.1 - p1.1)
    (m, p1.2 - m * p1.1)

/-- The synthesized finite replacement endpoint of an unbounded ridge,
`CellNeighbor.__post_init__` (lines 26-48): fit the line through the two cell
centers, take the perpendicular through the known ridge vertex `start`, choose
the extension x by the sign convention, and solve for y.  When the fitted line
is horizontal the solve divides by a zero coefficient: the Python float code
produces `±inf`/`NaN` there, the real model produces `y = 0`. -/
def synthDotEnd (c1 c2 start : Dot) : Dot :=
  let mc := lstsqFit c1 c2
  let a0 := mc.1; let b0 := (-1 : ℝ)
  let a := b0; let b := -a0
  let c := -(a * start.1 + b * start.2)
  let a' := if b < 0 then -a else a
  let x := if 0 ≤ a' then max c1.1 c2.1 else min c1.1 c2.1
  let y := -(a * x + c) / b
  (x, y)

/-- Float-faithful endpoint synthesis for an unbounded ridge: the same
computation as `synthDotEnd`, but the final solve `y = -(a*x + c)/b` is given
numpy's binary64 division semantics instead of the real-field convention.
When the fitted slope `m` is zero the divisor `b = -m` is the float `-0.0`
(so the `b < 0` branch test is still false, as in the real model), and
dividing by `-0.0` yields `-inf` for a positive numerator, `+inf` for a
negative one, and `NaN` for zero.  The y coordinate is therefore an `EReal`
(`⊥`/`⊤` for `∓inf`) and the `NaN` outcome is `none`; the x coordinate never
passes through a division and stays a plain real. -/
def synthDotEndF (c1 c2 start : Dot) : Option (ℝ × EReal) :=
  let mc := lstsqFit c1 c2
  let a0 := mc.1; let b0 := (-1 : ℝ)
  let a := b0; let b := -a0
  let c := -(a * start.1 + b * start.2)
  let a' := if b < 0 then -a else a
  let x := if 0 ≤ a' then max c1.1 c2.1 else min c1.1 c2.1
  let num := -(a * x + c)
  if a0 = 0 then
    if 0 < num then some (x, (⊥ : EReal))
    else if num < 0 then some (x, (⊤ : EReal))
    else none
  else some (x, ((num / b : ℝ) : EReal))

/-- `CellNeighbor`: a directed adjacency edge owned by cell `cell_id`, with the
shared boundary segment `(dot_start, dot_end)`. -/
structure CellNeighbor where
  cell_id : ℕ
  neighbor_id : ℕ
  dot_start : Dot
  dot_end : Dot
  is_finite : Bool

/-- Constructing a `CellNeighbor`, i.e. `CellNeighbor.__post_init__`:
`is_finite` is the truthiness of the passed `dot_end` (`none` models Python's
`None`), and for an unbounded ridge the endpoint is synthesized from the two
cell centers (looked up by id in the registry, modelled by the `centers`
list). -/
def mkCellNeighbor (centers : List Dot) (cid nid : ℕ) (start : Dot)
    (endOpt : Option Dot) : CellNeighbor :=
  match endOpt with
  | some e => ⟨cid, nid, start, e, true⟩
  | none =>
      ⟨cid, nid, start,
        synthDotEnd (centers.getD cid (0, 0)) (centers.getD nid (0, 0)) start, false⟩

/-- `Cell`: one generator point of the tessellation.  Python's `come_with`
holds a reference to another `Cell` object; the reference is modelled by the
referenced cell's id. -/
structure Cell where
  id : ℕ
  center : Dot
  is_closed : Bool := false
  neighbors : List CellNeighbor := []
  digit_width : Option ℝ := none
  relative_width : Option ℝ := none
  come_with : Option ℕ := none
  predicted_number : Option ℤ := none

/-- Error kinds surfaced by `Cell.calculate_width`: the explicit
`AttributeError("too many neighbors given, 1 or 2 expected.")`, and the
failure of `lib.line_intersection` on parallel lines (spec §4.1). -/
inductive WidthError where
  | badNeighborCount : WidthError
  | parallelLines : WidthError
deriving DecidableEq

/-- `Cell._get_dist_to_neighbor`: distance from the cell's center to the
intersection of the neighbor's boundary segment (as a line) with the
horizontal line through the center. -/
def distToNeighbor (c : Cell) (n : CellNeighbor) : Option Dot :=
  line_intersection (n.dot_start, n.dot_end) (c.center, (c.center.1 + 1, c.center.2))

/-- The allow-list restriction of `Cell.calculate_width` (line 75). -/
def filterIds (c : Cell) (ids : List ℕ) : List CellNeighbor :=
  c.neighbors.filter (fun n => ids.contains n.neighbor_id)

/-- `Cell.calculate_width(neighbor_ids)` (lines 74-83): restrict `neighbors`
to the allow-list; 1 match → that distance, 2 matches → the minimum, any other
count → error.  Python stores the result in `digit_width`; the model returns
it. -/
def calculate_width (c : Cell) (ids : List ℕ) : Except WidthError ℝ :=
  match filterIds c ids with
  | [n] =>
      match distToNeighbor c n with
      | some p => .ok (get_dist_between_dots p c.center)
      | none => .error .parallelLines
  | [n1, n2] =>
      match distToNeighbor c n1, distToNeighbor c n2 with
      | some p1, some p2 =>
          .ok (min (get_dist_between_dots p1 c.center) (get_dist_between_dots p2 c.center))
      | _, _ => .error .parallelLines
  | _ => .error .badNeighborCount

/-- One entry of `scipy.spatial.Voronoi.ridge_dict`: the two generator indices
and the two ridge-vertex indices, `-1` being the at-infinity sentinel. -/
structure VorRidge where
  p1 : ℕ
  p2 : ℕ
  v1 : ℤ
  v2 : ℤ

/-- The output of the external `scipy.spatial.Voronoi` call: the finite ridge
vertices and the ridge dictionary. -/
structure VorDiagram where
  vertices : List Dot
  ridges : List VorRidge

/-- Step 1 of `VoronoiTesselation.process`: clear the registry and create one
`Cell` per accumulated dot, the dot being center and the index being id. -/
def emptyCells (dots : List Dot) : List Cell :=
  dots.enum.map (fun p => { id := p.1, center := p.2 })

/-- Append a `CellNeighbor` to the cell with the given id. -/
def appendNeighbor (cells : List Cell) (cid : ℕ) (cn : CellNeighbor) : List Cell :=
  cells.map (fun c => if c.id = cid then { c with neighbors := c.neighbors ++ [cn] } else c)

/-- The ridge loop body of `VoronoiTesselation.process` (lines 114-143): for an
unbounded ridge take the one finite vertex and synthesize the other endpoint
in `CellNeighbor.__post_init__`; for a finite ridge use both vertices; append
mirrored neighbors to both cells. -/
def processRidge (dots : List Dot) (vertices : List Dot) (cells : List Cell)
    (r : VorRidge) : List Cell :=
  if r.v1 = -1 ∨ r.v2 = -1 then
    let dotId : ℤ := if r.v1 = -1 then r.v2 else r.v1
    let start := vertices.getD dotId.toNat (0, 0)
    let cn1 := mkCellNeighbor dots r.p1 r.p2 start none
    let cn2 := mkCellNeighbor dots r.p2 r.p1 start none
    appendNeighbor (appendNeighbor cells r.p1 cn1) r.p2 cn2
  else
    let d1 := vertices.getD r.v1.toNat (0, 0)
    let d2 := vertices.getD r.v2.toNat (0, 0)
    let cn1 := mkCellNeighbor dots r.p1 r.p2 d1 (some d2)
    let cn2 := mkCellNeighbor dots r.p2 r.p1 d1 (some d2)
    appendNeighbor (appendNeighbor cells r.p1 cn1) r.p2 cn2

/-- `VoronoiTesselation.process`, with the external `scipy` result passed in as
`diag`: build the fresh cell registry and fold the ridge loop over it. -/
def voronoiProcess (dots : List Dot) (diag : VorDiagram) : List Cell :=
  diag.ridges.foldl (processRidge dots diag.vertices) (emptyCells dots)

/-- Well-formedness of a scipy diagram over `n` generator points: every ridge
joins two distinct valid generators and names at least one finite ridge vertex,
and every named vertex index is valid. -/
def ValidDiagram (n : ℕ) (diag : VorDiagram) : Prop :=
  ∀ r ∈ diag.ridges, r.p1 < n ∧ r.p2 < n ∧ r.p1 ≠ r.p2 ∧
    (r.v1 = -1 → r.v2 ≠ -1) ∧
    (r.v1 ≠ -1 → r.v1.toNat < diag.vertices.length) ∧
    (r.v2 ≠ -1 → r.v2.toNat < diag.vertices.length)

/-- The four generator points of the unit-square scenario (spec §8), in the
order they are fed to the tessellation. -/
def unitSquareDots : List Dot := [(0, 0), (0, 1), (1, 1), (1, 0)]

/-- Modelled from the output of `scipy.spatial.Voronoi` on the unit square:
the four generators are cocircular, so the diagram is degenerate — a single
Voronoi vertex at the center `(1/2, 1/2)` and four unbounded ridges, one
between each pair of edge-adjacent generators (no ridge between the diagonal
pairs). -/
def unitSquareDiag : VorDiagram :=
  { vertices := [(1 / 2, 1 / 2)],
    ridges := [⟨0, 1, -1, 0⟩, ⟨0, 3, -1, 0⟩, ⟨1, 2, -1, 0⟩, ⟨2, 3, -1, 0⟩] }

/-- The cell graph the repository builds for the unit-square scenario. -/
def unitSquareCells : List Cell := voronoiProcess unitSquareDots unitSquareDiag

/-- The closed unit bounding box of the four generator points. -/
def insideUnitBox (d : Dot) : Prop :=
  0 ≤ d.1 ∧ d.1 ≤ 1 ∧ 0 ≤ d.2 ∧ d.2 ≤ 1

/-- The float-faithful synthesized endpoint of an unbounded ridge: the vertex
selection of `processRidge`'s unbounded branch (the one finite ridge vertex and
the two cell centers) fed to `synthDotEndF` in place of the real-model
`synthDotEnd`. -/
def ridgeSynthEndpoint (dots vertices : List Dot) (r : VorRidge) :
    Option (ℝ × EReal) :=
  let dotId : ℤ := if r.v1 = -1 then r.v2 else r.v1
  let start := vertices.getD dotId.toNat (0, 0)
  synthDotEndF (dots.getD r.p1 (0, 0)) (dots.getD r.p2 (0, 0)) start

/-- Modelled from the spec: the claim's endpoint clause for the unit-square
scenario.  The synthesized replacement endpoint of an unbounded ridge must lie
outside the bounding box `[0,1] × [0,1]` on the side the ridge extends to,
away from the two generating centers: in each axis direction in which the
ridge leaves its finite vertex (from the vertex towards the midpoint of the
two centers and onwards), the endpoint lies strictly beyond the box on that
side. -/
def specAwayOutside (c1 c2 vertex : Dot) (e : ℝ × EReal) : Prop :=
  ((c1.1 + c2.1) / 2 < vertex.1 → e.1 < 0) ∧
  (vertex.1 < (c1.1 + c2.1) / 2 → 1 < e.1) ∧
  ((c1.2 + c2.2) / 2 < vertex.2 → e.2 < (0 : EReal)) ∧
  (vertex.2 < (c1.2 + c2.2) / 2 → (1 : EReal) < e.2)

/-- Placeholder cell. -/
def junkCell : Cell := { id := 0, center := (0, 0) }

/-- The boundary-segment endpoints of every neighbor of cell `a` that points at
cell `b` (cells addressed by id = list position). -/
def neighborSegs (cells : List Cell) (a b : ℕ) : List (Dot × Dot) :=
  ((cells.getD a junkCell).neighbors.filter
      (fun cn => cn.neighbor_id = b)).map (fun cn => (cn.dot_start, cn.dot_end))

/-- The registry invariant of `VoronoiTesselation.process`: the cell stored at
position `j` has id `j` (ids are assigned from `enumerate`). -/
def CellsWF (cells : List Cell) : Prop :=
  ∀ j, j < cells.length → (cells.getD j junkCell).id = j

/-! ## The row manager (`src/rows_manager/__init__.py`) -/

/-- Placeholder vector (never observed under the nonemptiness preconditions of
the theorems below; Python raises `IndexError` where the model reads it). -/
def junkVec : Vec := ⟨(0, 0), (0, 0)⟩

/-- `MatrixRow` (lines 17-32).  The private `_top_dot`/`_bottom_dot`/
`_is_vector_extended` attributes are ordinary fields here. -/
structure MatrixRow where
  index : ℕ
  vectors_list : List Vec := []
  cos_list : List ℝ := []
  top : ℝ := 0
  bottom : ℝ := 0
  top_dot : Option Dot := none
  bottom_dot : Option Dot := none
  voronoi_cells : List Cell := []
  is_vector_extended : Bool := false

/-- Placeholder row (never observed under the nonemptiness preconditions). -/
def junkRow : MatrixRow := { index := 0 }

/-- `MatrixRow.final_vector`: beginning of the first vector → end of the last
vector. -/
def final_vector (r : MatrixRow) : Vec :=
  ⟨(r.vectors_list.headD junkVec).begin, (r.vectors_list.getLastD junkVec).end_⟩

/-- `MatrixRow._update_top` (lines 65-80).  In the `else` branch Python reads
`self._top_dot`, which is `None` until the first strict increase; the model
reads `(0, 0)` there (Python would raise `TypeError`; the branch with
`_top_dot = None` is reachable only when the very first distance is `0`). -/
def updateTop (r : MatrixRow) (new_top : Dot) : MatrixRow :=
  if r.vectors_list.length = 0 then r
  else
    let fv := final_vector r
    let d := get_dist_to_straight new_top fv.begin fv.end_
    if r.top < d then { r with top_dot := some new_top, top := d }
    else
      { r with top := get_dist_to_straight (r.top_dot.getD (0, 0)) fv.begin fv.end_ }

/-- `MatrixRow._update_bottom` (lines 82-97), mirror of `_update_top`. -/
def updateBottom (r : MatrixRow) (new_bottom : Dot) : MatrixRow :=
  if r.vectors_list.length = 0 then r
  else
    let fv := final_vector r
    let d := get_dist_to_straight new_bottom fv.begin fv.end_
    if r.bottom < d then { r with bottom_dot := some new_bottom, bottom := d }
    else
      { r with bottom := get_dist_to_straight (r.bottom_dot.getD (0, 0)) fv.begin fv.end_ }

/-- `MatrixRow.add_hatch` (lines 39-47): a single not-yet-extended vector has
its end mutated in place, otherwise the vector is appended; then the top and
bottom corner dots are folded into the band. -/
def add_hatch (r : MatrixRow) (v : Vec) (top bottom : Dot) : MatrixRow :=
  let r1 :=
    if r.vectors_list.length = 1 ∧ r.is_vector_extended = false then
      { r with vectors_list := [⟨(r.vectors_list.headD junkVec).begin, v.end_⟩],
               is_vector_extended := true }
    else { r with vectors_list := r.vectors_list ++ [v] }
  updateBottom (updateTop r1 top) bottom

/-- `MatrixRow.is_dot_inside_row` (lines 49-63): band quadrilateral built by
shifting the final vector's endpoints vertically by `bottom` (down side) and
`-top` (up side); the dot is inside iff the sum of the four point-edge triangle
areas matches the sum computed with the code's reference point `middle` within
`0.001`. -/
def is_dot_inside_row (r : MatrixRow) (dot : Dot) : Prop :=
  let fv := final_vector r
  let x1 : Dot := (fv.begin.1, fv.begin.2 + r.bottom)
  let x2 : Dot := (fv.end_.1, fv.end_.2 + r.bottom)
  let x3 : Dot := (fv.end_.1, fv.end_.2 - r.top)
  let x4 : Dot := (fv.begin.1, fv.begin.2 - r.top)
  let middle : Dot := ((x1.1 + x2.1) / 2, (x2.2 + x3.2) / 2)
  let s1 := get_triangle_square x1 x2 dot + get_triangle_square x2 x3 dot +
            get_triangle_square x3 x4 dot + get_triangle_square x4 x1 dot
  let s2 := get_triangle_square x1 x2 middle + get_triangle_square x2 x3 middle +
            get_triangle_square x3 x4 middle + get_triangle_square x4 x1 middle
  |s1 - s2| < 1 / 1000

/-- The linking condition of grouping heuristic A, the test
`cell.relative_width <= 1.5` with `relative_width = center_distance / average`
from `MatrixRow.predict_neighbor_cells` (lines 99-106). -/
def heuristicA_links (avg : ℝ) (c1 c2 : Dot) : Prop :=
  get_dist_between_dots c1 c2 / avg ≤ 3 / 2

instance (avg : ℝ) (c1 c2 : Dot) : Decidable (heuristicA_links avg c1 c2) := by
  unfold heuristicA_links; exact inferInstance

instance (r : MatrixRow) (dot : Dot) : Decidable (is_dot_inside_row r dot) := by
  unfold is_dot_inside_row; exact inferInstance

/-- The forward pass of `MatrixRow.predict_neighbor_cells` over consecutive
cell pairs: set `relative_width` and, when linked, `come_with` (the Python
object reference modelled as the next cell's id). -/
def linkPass (avg : ℝ) : List Cell → List Cell
  | [] => []
  | [c] => [c]
  | c :: next :: rest =>
      let d := get_dist_between_dots c.center next.center
      let c' : Cell :=
        { c with relative_width := some (d / avg),
                 come_with := if heuristicA_links avg c.center next.center then some next.id
                              else c.come_with }
      c' :: linkPass avg (next :: rest)

/-- `MatrixRow.predict_neighbor_cells` (lines 99-106): heuristic A.  `none`
models the Python exceptions on an empty row (`ZeroDivisionError`) or an unset
`digit_width` (`TypeError`). -/
def predict_neighbor_cells (r : MatrixRow) : Option MatrixRow :=
  if r.voronoi_cells.length = 0 ∨ ∃ c ∈ r.voronoi_cells, c.digit_width = none then none
  else
    let avg := ((r.voronoi_cells.map (fun c => c.digit_width.getD 0)).sum) /
      (r.voronoi_cells.length : ℝ)
    some { r with voronoi_cells := linkPass avg r.voronoi_cells }

/-- `MatrixRow.is_dots_come_together` (lines 113-123): heuristic B's pairwise
test.  `none` models the Python `ZeroDivisionError` when the row height
`top + bottom` is zero, and the `IndexError`s of `vectors_list[0]` /
`dots[i]` / `dots[j]`.  The constants are `0.0461394` and `0.67440243`. -/
def is_dots_come_together (r : MatrixRow) (i j : ℕ) : Option Bool :=
  let height := r.top + r.bottom
  if height = 0 then none
  else
    let k := 1 / height
    match r.vectors_list with
    | [] => none
    | v0 :: _ =>
        let dots := v0.begin :: r.vectors_list.map Vec.end_
        match dots.get? i, dots.get? j with
        | some d1, some d2 =>
            some (decide (get_dist_between_dots d1 d2 * k <
              461394 / 10000000 * k * 1000 + 67440243 / 100000000))
        | _, _ => none

/-- The forward pass of `MatrixRow.predict_neighbor_cells_2`: the first failing
pairwise test aborts the whole pass (the Python exception propagates). -/
def predictPass2 (r : MatrixRow) : ℕ → List Cell → Option (List Cell)
  | _, [] => some []
  | _, [c] => some [c]
  | i, c :: next :: rest =>
      match is_dots_come_together r i (i + 1) with
      | none => none
      | some b =>
          let c' : Cell := if b then { c with come_with := some next.id } else c
          (predictPass2 r (i + 1) (next :: rest)).map (fun cs => c' :: cs)

/-- `MatrixRow.predict_neighbor_cells_2` (lines 108-111): heuristic B, the
public grouping interface over one row. -/
def predict_neighbor_cells_2 (r : MatrixRow) : Option MatrixRow :=
  (predictPass2 r 0 r.voronoi_cells).map (fun cs => { r with voronoi_cells := cs })

/-- One raw stroke as fed to `RowsManager.add_new_hatch`: its four corner
dots. -/
structure Hatch where
  left : Dot
  right : Dot
  top : Dot
  bottom : Dot

/-- The middle dot of a hatch: average of left/right x and top/bottom y
(`add_new_hatch`, line 151). -/
def middleOf (h : Hatch) : Dot :=
  ((h.left.1 + h.right.1) / 2, (h.top.2 + h.bottom.2) / 2)

/-- `RowsManager.is_hatch_horizontal` (lines 298-300). -/
def is_hatch_horizontal (top bottom : ℝ) : Prop := |top - bottom| ≤ 20

instance (t b : ℝ) : Decidable (is_hatch_horizontal t b) := by
  unfold is_hatch_horizontal; exact inferInstance

/-- The horizontal comparison vector `Vector((0, 0), (1, 0))` of
`add_new_hatch` (line 166). -/
def xAxisVec : Vec := ⟨(0, 0), (1, 0)⟩

/-- The state of a `RowsManager` (lines 130-145); a cleared manager
(`RowsManager.clear`, lines 255-263) is `initRM`. -/
structure RMState where
  vectors : List Vec := []
  dots : List Dot := []
  cos_list : List ℝ := []
  top_list : List Dot := []
  bottom_list : List Dot := []
  rows : List MatrixRow := []
  processed : Bool := false

/-- A freshly constructed / cleared manager. -/
def initRM : RMState := {}

/-- `RowsManager.add_new_hatch` (lines 147-169). -/
def add_new_hatch (st : RMState) (h : Hatch) : RMState :=
  let middle := middleOf h
  let st1 := if is_hatch_horizontal h.top.2 h.bottom.2 then st
             else { st with dots := st.dots ++ [middle] }
  if st1.vectors.length = 0 then
    { st1 with vectors := [⟨middle, middle⟩],
               top_list := st1.top_list ++ [h.top],
               bottom_list := st1.bottom_list ++ [h.bottom] }
  else
    let v : Vec := ⟨(st1.vectors.getLastD junkVec).end_, middle⟩
    { st1 with vectors := st1.vectors ++ [v],
               cos_list := st1.cos_list ++ [get_angle_between_vectors v xAxisVec],
               top_list := st1.top_list ++ [h.top],
               bottom_list := st1.bottom_list ++ [h.bottom] }

/-- A stream of hatches fed to a cleared manager. -/
def ingest (hs : List Hatch) : RMState := hs.foldl add_new_hatch initRM

/-- The loop state of `RowsManager.process` (lines 171-224): the rows built so
far, the running `row_id`, and the two flags.  `ever_absorbed` is a ghost
field recording whether any hatch was ever matched to an existing row by
`_process_hatch_not_current_row` (the event the source logs as
"hatch was added to the row"). -/
structure LoopState where
  rows : List MatrixRow
  row_id : ℕ
  is_added : Bool
  is_prev_horizontal : Bool
  ever_absorbed : Bool

/-- Replace the last row of the list (`self.rows[-1]`) by `f` of it. -/
def updateLast (rows : List MatrixRow) (f : MatrixRow → MatrixRow) : List MatrixRow :=
  rows.dropLast ++ [f (rows.getLastD junkRow)]

/-- The row search of `_process_hatch_not_current_row` (lines 280-284): the
first row with truthy `top` and `bottom` whose band contains the dot; only the
found/not-found outcome is observable (the match is logged and the hatch
dropped). -/
def findAbsorbingRow (p : Dot) : List MatrixRow → Bool
  | [] => false
  | r :: rs =>
      if r.top ≠ 0 ∧ r.bottom ≠ 0 ∧ is_dot_inside_row r p then true
      else findAbsorbingRow p rs

/-- `RowsManager._process_hatch_not_current_row` (lines 269-296): if some row's
band contains the vector's end the hatch is dropped (`(true, ...)`, state
unchanged); otherwise the previous row's band is closed off with this hatch's
corners and a new row is seeded with a zero-length vector at the vector's
end. -/
def processHatchNotCurrentRow (rows : List MatrixRow) (row_id : ℕ) (v : Vec)
    (top bottom : Dot) : Bool × ℕ × List MatrixRow :=
  if findAbsorbingRow v.end_ rows then (true, row_id, rows)
  else
    let rows1 := updateLast rows (fun r => updateBottom (updateTop r top) bottom)
    (false, row_id + 1,
      rows1 ++ [{ index := row_id + 1, vectors_list := [⟨v.end_, v.end_⟩] }])

/-- One iteration of the `process` loop (lines 185-213), on the enumerated
zip item `(i, ((cos, vector), (top, bottom)))`: the horizontal-lookahead skip,
the continuation branch (with the begin-snap after a horizontal connector),
and the row-break branch. -/
def processStep (cfg : ℝ) (tops bots : List Dot)
    (ls : LoopState) (item : ℕ × (ℝ × Vec) × Dot × Dot) : LoopState :=
  let i := item.1
  let cos := item.2.1.1
  let vector := item.2.1.2
  let top := item.2.2.1
  let bottom := item.2.2.2
  if i + 1 < tops.length ∧
      is_hatch_horizontal (tops.getD (i + 1) (0, 0)).2 (bots.getD (i + 1) (0, 0)).2 then
    { ls with is_added := true, is_prev_horizontal := true }
  else if cos ≤ cfg then
    let v := if ls.is_prev_horizontal then
        Vec.mk (final_vector (ls.rows.getLastD junkRow)).end_ vector.end_
      else vector
    { ls with rows := updateLast ls.rows (fun r => add_hatch r v top bottom),
              is_added := false, is_prev_horizontal := false }
  else
    let res := processHatchNotCurrentRow ls.rows ls.row_id vector top bottom
    { ls with rows := res.2.2, row_id := res.2.1, is_added := res.1,
              ever_absorbed := ls.ever_absorbed || res.1 }

/-- The enumerated loop stream of `process`:
`zip(cos_list, vectors[1:], top_list, bottom_list)` with the running hatch
index `i` (zip truncates to the shortest list, so the last hatch's corners
never enter the loop). -/
def stepItems (st : RMState) : List (ℕ × (ℝ × Vec) × Dot × Dot) :=
  ((st.cos_list.zip (st.vectors.drop 1)).zip (st.top_list.zip st.bottom_list)).enum

/-- The loop-entry state of `process` (lines 173-183): one row of index 0
seeded with the first accumulated vector. -/
def initLoopState (st : RMState) : LoopState :=
  { rows := [{ index := 0, vectors_list := [st.vectors.headD junkVec] }],
    row_id := 0, is_added := false, is_prev_horizontal := false, ever_absorbed := false }

/-- The full `process` loop. -/
def processLoop (cfg : ℝ) (st : RMState) : LoopState :=
  (stepItems st).foldl (processStep cfg st.top_list st.bottom_list) (initLoopState st)

/-- `RowsManager.process` (lines 171-224), with the configuration value
`config.NEW_ROW_ANGLE` as the parameter `cfg`: run the loop, then, unless the
last hatch was matched to an existing row, close the last row off with the
last hatch's corners. -/
def process (cfg : ℝ) (st : RMState) : RMState :=
  let ls := processLoop cfg st
  let rows1 :=
    if ls.is_added then ls.rows
    else updateLast ls.rows (fun r =>
      updateBottom (updateTop r (st.top_list.getLastD (0, 0))) (st.bottom_list.getLastD (0, 0)))
  { st with rows := rows1, processed := true }

/-- A row's polyline is a contiguous chain: each vector ends where the next
begins. -/
def ChainRow (r : MatrixRow) : Prop :=
  List.Chain' (fun a b => a.end_ = b.begin) r.vectors_list

/-- The tail of the chained vector list built by repeated `add_new_hatch`
calls: one vector from each middle dot to the next. -/
def chainTail (p : Dot) : List Dot → List Vec
  | [] => []
  | m :: ms => Vec.mk p m :: chainTail m ms

/-- The full vector list built by repeated `add_new_hatch` calls: a zero-length
seed at the first middle dot, then the chain of middle-to-middle vectors. -/
def chainVecs : List Dot → List Vec
  | [] => []
  | m :: ms => Vec.mk m m :: chainTail m ms

/-- Placeholder hatch. -/
def junkHatch : Hatch := ⟨(0, 0), (0, 0), (0, 0), (0, 0)⟩

/-! ## Spec-side definitions and concrete inputs used by the claims -/

/-- The corner list `[x1, x2, x3, x4]` of a row's band quadrilateral, exactly
as `is_dot_inside_row` builds it. -/
def bandCorners (r : MatrixRow) : List Dot :=
  let fv := final_vector r
  [(fv.begin.1, fv.begin.2 + r.bottom), (fv.end_.1, fv.end_.2 + r.bottom),
   (fv.end_.1, fv.end_.2 - r.top), (fv.begin.1, fv.begin.2 - r.top)]

/-- The sum of the four triangle areas formed by `p` with each edge of the
quadrilateral `quad` (edges pair each corner with the cyclically next one). -/
def areaSumAt (quad : List Dot) (p : Dot) : ℝ :=
  ((quad.zip (quad.tail ++ quad.take 1)).map (fun e => get_triangle_square e.1 e.2 p)).sum

/-- The membership test exactly as the spec words it (§4.1
`point_in_quadrilateral`): the area sum for the dot equals, within `0.001`,
the area sum for the quadrilateral's centroid. -/
def specCentroidTest (r : MatrixRow) (p : Dot) : Prop :=
  let quad := bandCorners r
  let centroid : Dot := ((quad.map Prod.fst).sum / 4, (quad.map Prod.snd).sum / 4)
  |areaSumAt quad p - areaSumAt quad centroid| < 1 / 1000

/-- The membership test with the code's actual reference point: the midpoint
construction `((x1.x + x2.x)/2, (x2.y + x3.y)/2)` (line 55), which is the
quadrilateral's centroid only when the final vector is horizontal. -/
def specMiddleTest (r : MatrixRow) (p : Dot) : Prop :=
  let quad := bandCorners r
  let fv := final_vector r
  let middle : Dot := ((fv.begin.1 + fv.end_.1) / 2,
    ((fv.end_.2 + r.bottom) + (fv.end_.2 - r.top)) / 2)
  |areaSumAt quad p - areaSumAt quad middle| < 1 / 1000

/-- A slanted row band: final vector `(0,10) → (10,0)`, band half-widths 1.
Its quadrilateral is the parallelogram `(0,11), (10,1), (10,-1), (0,9)`. -/
def ce7Row : MatrixRow :=
  { index := 0, vectors_list := [⟨(0, 10), (10, 0)⟩], top := 1, bottom := 1 }

/-- The six-hatch stream of the chain-break counterexample: two near-vertical
strokes forming row 0 along the line `x = 200`, a jump right that opens row 1,
a leftward continuation extending row 1, a jump whose vector ends exactly on
row 0's (degenerate) band so it is matched to row 0 and dropped, and one more
continuation stroke. -/
def ce1Hatches : List Hatch :=
  [⟨(150, 0), (250, 0), (190, 60), (190, -60)⟩,
   ⟨(150, 100), (250, 100), (195, 160), (195, 40)⟩,
   ⟨(250, 100), (350, 100), (310, 160), (310, 40)⟩,
   ⟨(-50, 100), (50, 100), (5, 160), (5, 40)⟩,
   ⟨(150, 250), (250, 250), (210, 310), (210, 190)⟩,
   ⟨(170, 160), (270, 160), (260, 220), (260, 100)⟩]

/-- A three-hatch vertical chain with pairwise distinct top corner dots, used
to observe which stroke's corners each loop iteration folds into the row. -/
def ce2Hatches : List Hatch :=
  [⟨(-50, 0), (50, 0), (10, 60), (10, -60)⟩,
   ⟨(-50, 100), (50, 100), (3, 160), (3, 40)⟩,
   ⟨(-50, 200), (50, 200), (4, 260), (4, 140)⟩]

/-- A two-hatch vertical chain in which no hatch is ever matched to an
existing row. -/
def c1wHatches : List Hatch :=
  [⟨(-50, 0), (50, 0), (10, 60), (10, -60)⟩,
   ⟨(-50, 100), (50, 100), (5, 160), (5, 40)⟩]

/-- A closed row along `x = 200` with established band half-widths 10, as
produced by the first two hatches of `ce1Hatches`. -/
def c3Row : MatrixRow :=
  { index := 0, vectors_list := [⟨(200, 0), (200, 100)⟩], top := 10, bottom := 10,
    top_dot := some (190, 60), bottom_dot := some (190, -60), is_vector_extended := true }

/-- A loop state whose only finalized row is `c3Row`. -/
def c3State : LoopState :=
  { rows := [c3Row], row_id := 0, is_added := false, is_prev_horizontal := false,
    ever_absorbed := false }

/-- A cell at the origin with one neighbor whose boundary segment is the
vertical segment `x = 1`. -/
def c6Cell : Cell :=
  { id := 0, center := (0, 0), neighbors := [⟨0, 1, (1, -1), (1, 1), true⟩] }

/-- A degenerate row (`top + bottom = 0`) carrying two tessellation cells. -/
def c9FlatRow : MatrixRow :=
  { index := 0, vectors_list := [⟨(0, 0), (1, 0)⟩], top := 0, bottom := 0,
    voronoi_cells := [{ id := 0, center := (0, 0) }, { id := 1, center := (1, 0) }] }

/-- A row of nonzero height. -/
def c9TallRow : MatrixRow :=
  { index := 0, vectors_list := [⟨(0, 0), (1, 0)⟩], top := 1, bottom := 0 }

/-- Placeholder loop item. -/
def junkItem : ℕ × (ℝ × Vec) × Dot × Dot := (0, (0, junkVec), ((0, 0), (0, 0)))

/-- A vector list is chained starting from `p`: each vector begins where the
previous one (or `p`) ended. -/
def ChainedVecs : Dot → List Vec → Prop
  | _, [] => True
  | p, v :: vs => v.begin = p ∧ ChainedVecs v.end_ vs

/-- The loop items carry chained vectors starting from `p`. -/
def ChainedItems : Dot → List (ℕ × (ℝ × Vec) × Dot × Dot) → Prop
  | _, [] => True
  | p, it :: its => it.2.1.2.begin = p ∧ ChainedItems it.2.1.2.end_ its

/-- All rows are nonempty contiguous chains. -/
def RowsChained (rows : List MatrixRow) : Prop :=
  rows ≠ [] ∧ ∀ r ∈ rows, ChainRow r ∧ r.vectors_list ≠ []

/-- The end point of the last vector of the last row. -/
def lastRowEnd (ls : LoopState) : Dot :=
  ((ls.rows.getLastD junkRow).vectors_list.getLastD junkVec).end_

/-! ## Helper lemmas -/

theorem sqrt_of_sq {a b : ℝ} (hb : 0 ≤ b) (h : b ^ 2 = a) : Real.sqrt a = b := by
  rw [← h, Real.sqrt_sq hb]

theorem dist_eval {x1 y1 x2 y2 d : ℝ} (hd : 0 ≤ d)
    (h : (x1 - x2) ^ 2 + (y1 - y2) ^ 2 = d ^ 2) :
    get_dist_between_dots (x1, y1) (x2, y2) = d := by
  show Real.sqrt ((x1 - x2) ^ 2 + (y1 - y2) ^ 2) = d
  rw [h, Real.sqrt_sq hd]

theorem enum_getD {α : Type _} (l : List α) (j : ℕ) (hj : j < l.length)
    (d : ℕ × α) (d' : α) : l.enum.getD j d = (j, l.getD j d') := by
  have h1 : l.enum[j]? = some (j, l[j]) := by
    rw [List.getElem?_enum, List.getElem?_eq_getElem hj]
    rfl
  rw [List.getD_eq_getElem?_getD, h1, List.getD_eq_getElem?_getD,
    List.getElem?_eq_getElem hj]
  rfl

theorem zip_getD {α β : Type _} (l1 : List α) (l2 : List β) (j : ℕ)
    (h1 : j < l1.length) (h2 : j < l2.length) (d : α × β) (d1 : α) (d2 : β) :
    (l1.zip l2).getD j d = (l1.getD j d1, l2.getD j d2) := by
  induction l1 generalizing l2 j with
  | nil => simp at h1
  | cons a t ih =>
      cases l2 with
      | nil => simp at h2
      | cons b t2 =>
          cases j with
          | zero => rfl
          | succ j => exact ih t2 j (by simpa using h1) (by simpa using h2)

theorem drop_one_getD {α : Type _} (l : List α) (j : ℕ) (d : α) :
    (l.drop 1).getD j d = l.getD (j + 1) d := by
  cases l <;> rfl

theorem ingest_append (hs : List Hatch) (h : Hatch) :
    ingest (hs ++ [h]) = add_new_hatch (ingest hs) h := by
  unfold ingest; rw [List.foldl_append]; rfl

theorem chainTail_length (p : Dot) (ms : List Dot) : (chainTail p ms).length = ms.length := by
  induction ms generalizing p with
  | nil => rfl
  | cons m ms ih => simp [chainTail, ih]

theorem chainVecs_length (ms : List Dot) : (chainVecs ms).length = ms.length := by
  cases ms with
  | nil => rfl
  | cons m ms => simp [chainVecs, chainTail_length]

theorem getLastD_cons_eq {α : Type _} (a p : α) (ms : List α) :
    (a :: ms).getLastD p = ms.getLastD a := by
  cases ms <;> rfl

theorem chainTail_append (p : Dot) (ms : List Dot) (m : Dot) :
    chainTail p (ms ++ [m]) = chainTail p ms ++ [Vec.mk (ms.getLastD p) m] := by
  induction ms generalizing p with
  | nil => simp [chainTail, List.getLastD]
  | cons a ms ih =>
      rw [List.cons_append]
      show Vec.mk p a :: chainTail a (ms ++ [m]) = _
      rw [ih, getLastD_cons_eq]
      rfl

theorem chainVecs_append (ms : List Dot) (m : Dot) (h : ms ≠ []) :
    chainVecs (ms ++ [m]) = chainVecs ms ++ [Vec.mk (ms.getLastD (0, 0)) m] := by
  cases ms with
  | nil => cases h rfl
  | cons a ms =>
      rw [List.cons_append]
      show Vec.mk a a :: chainTail a (ms ++ [m]) = _
      rw [chainTail_append, getLastD_cons_eq]
      rfl

theorem chainTail_getLast_end (p : Dot) (ms : List Dot) (h : ms ≠ []) :
    ((chainTail p ms).getLastD junkVec).end_ = ms.getLastD (0, 0) := by
  induction ms generalizing p with
  | nil => cases h rfl
  | cons m ms ih =>
      cases ms with
      | nil => simp [chainTail]
      | cons b ms => simpa [chainTail, List.getLastD_cons] using ih m (by simp)

theorem chainVecs_getLast_end (ms : List Dot) (h : ms ≠ []) :
    ((chainVecs ms).getLastD junkVec).end_ = ms.getLastD (0, 0) := by
  cases ms with
  | nil => cases h rfl
  | cons a ms =>
      cases ms with
      | nil => simp [chainVecs, chainTail]
      | cons b ms =>
          simpa [chainVecs, List.getLastD_cons] using chainTail_getLast_end a (b :: ms) (by simp)

theorem add_new_hatch_top_list (st : RMState) (h : Hatch) :
    (add_new_hatch st h).top_list = st.top_list ++ [h.top] := by
  simp only [add_new_hatch]
  split_ifs <;> rfl

theorem add_new_hatch_bottom_list (st : RMState) (h : Hatch) :
    (add_new_hatch st h).bottom_list = st.bottom_list ++ [h.bottom] := by
  simp only [add_new_hatch]
  split_ifs <;> rfl

theorem add_new_hatch_vectors (st : RMState) (h : Hatch) :
    (add_new_hatch st h).vectors =
      if st.vectors.length = 0 then [⟨middleOf h, middleOf h⟩]
      else st.vectors ++ [⟨(st.vectors.getLastD junkVec).end_, middleOf h⟩] := by
  simp only [add_new_hatch]
  split_ifs <;> rfl

theorem add_new_hatch_cos_list (st : RMState) (h : Hatch) :
    (add_new_hatch st h).cos_list =
      if st.vectors.length = 0 then st.cos_list
      else st.cos_list ++
        [get_angle_between_vectors ⟨(st.vectors.getLastD junkVec).end_, middleOf h⟩ xAxisVec] := by
  simp only [add_new_hatch]
  split_ifs <;> rfl

/-- Characterization of the manager state after ingesting a hatch stream:
the vectors chain through the middle dots, the corner lists record the
corners in order, and the cosine list is the tail of the vector list measured
against the horizontal. -/
theorem ingest_spec (hs : List Hatch) :
    (ingest hs).vectors = chainVecs (hs.map middleOf) ∧
    (ingest hs).top_list = hs.map Hatch.top ∧
    (ingest hs).bottom_list = hs.map Hatch.bottom ∧
    (ingest hs).cos_list =
      ((chainVecs (hs.map middleOf)).drop 1).map
        (fun v => get_angle_between_vectors v xAxisVec) := by
  induction hs using List.reverseRecOn with
  | nil => exact ⟨rfl, rfl, rfl, rfl⟩
  | append_singleton hs h ih =>
      obtain ⟨hv, ht, hb, hc⟩ := ih
      rw [ingest_append]
      have hdrop : ∀ (l : List Vec) (x : Vec), l ≠ [] →
          (l ++ [x]).drop 1 = l.drop 1 ++ [x] := by
        intro l x hl; cases l with
        | nil => cases hl rfl
        | cons a l => simp
      cases hs with
      | nil =>
          refine ⟨?_, ?_, ?_, ?_⟩
          · rw [add_new_hatch_vectors, hv]
            simp [ingest, initRM, chainVecs, chainTail]
          · rw [add_new_hatch_top_list, ht]; simp
          · rw [add_new_hatch_bottom_list, hb]; simp
          · rw [add_new_hatch_cos_list, hv]
            simp [ingest, initRM, chainVecs, chainTail, hc]
      | cons h0 hs =>
          have hlen : (ingest (h0 :: hs)).vectors.length = hs.length + 1 := by
            rw [hv, chainVecs_length]; simp
          have hne : ¬((ingest (h0 :: hs)).vectors.length = 0) := by omega
          have hmapne : (h0 :: hs).map middleOf ≠ [] := by simp
          have hlast : ((ingest (h0 :: hs)).vectors.getLastD junkVec).end_ =
              ((h0 :: hs).map middleOf).getLastD (0, 0) := by
            rw [hv]; exact chainVecs_getLast_end _ hmapne
          have hmapsnoc : ((h0 :: hs) ++ [h]).map middleOf =
              (h0 :: hs).map middleOf ++ [middleOf h] := by
            rw [List.map_append]; rfl
          refine ⟨?_, ?_, ?_, ?_⟩
          · rw [add_new_hatch_vectors, if_neg hne, hlast, hv, hmapsnoc,
              chainVecs_append _ _ hmapne]
          · rw [add_new_hatch_top_list, ht, List.map_append]; rfl
          · rw [add_new_hatch_bottom_list, hb, List.map_append]; rfl
          · rw [add_new_hatch_cos_list, if_neg hne, hlast, hc, hmapsnoc,
              chainVecs_append _ _ hmapne, hdrop _ _ (by
                intro hempty
                have := chainVecs_length ((h0 :: hs).map middleOf)
                rw [hempty] at this
                simp at this),
              List.map_append]
            rfl

/-! ## Claim C10 -/

/-- C10: after every sequence of `add_new_hatch` calls on a cleared manager the
parallel-list invariant holds — `top_list`, `bottom_list` and `vectors` all
have one entry per hatch while `cos_list` has one fewer, and the first stroke
seeds a zero-length vector at its middle dot and records its corners without
recording a cosine. -/
theorem C10_parallel_lists (hs : List Hatch) (hne : hs ≠ []) :
    (ingest hs).top_list.length = (ingest hs).vectors.length ∧
    (ingest hs).bottom_list.length = (ingest hs).vectors.length ∧
    (ingest hs).vectors.length = hs.length ∧
    (ingest hs).cos_list.length = (ingest hs).vectors.length - 1 ∧
    (ingest hs).vectors.headD junkVec =
      ⟨middleOf (hs.headD junkHatch), middleOf (hs.headD junkHatch)⟩ ∧
    (ingest hs).top_list.headD (0, 0) = (hs.headD junkHatch).top := by
  obtain ⟨hv, ht, hb, hc⟩ := ingest_spec hs
  refine ⟨?_, ?_, ?_, ?_, ?_, ?_⟩
  · rw [ht, hv, chainVecs_length]; simp
  · rw [hb, hv, chainVecs_length]; simp
  · rw [hv, chainVecs_length]; simp
  · rw [hc, hv, List.length_map, List.length_drop]
  · cases hs with
    | nil => cases hne rfl
    | cons h0 hs => rw [hv]; simp [chainVecs]
  · cases hs with
    | nil => cases hne rfl
    | cons h0 hs => rw [ht]; simp

/-- Witness for C10 at the concrete two-hatch stream `c1wHatches`. -/
theorem C10_parallel_lists_witness :
    c1wHatches ≠ [] ∧
    (ingest c1wHatches).top_list.length = (ingest c1wHatches).vectors.length ∧
    (ingest c1wHatches).vectors.length = c1wHatches.length ∧
    (ingest c1wHatches).cos_list.length = (ingest c1wHatches).vectors.length - 1 := by
  have hne : c1wHatches ≠ [] := by simp [c1wHatches]
  have h := C10_parallel_lists c1wHatches hne
  exact ⟨hne, h.1, h.2.2.1, h.2.2.2.1⟩

/-! ## Claim C8 -/

/-- C8: heuristic A's linking test is monotone in distance — for a fixed row
average width, if a pair at some center distance is linked then any pair at a
smaller or equal center distance is also linked (decreasing the distance never
unlinks). -/
theorem C8_heuristicA_monotone (avg : ℝ) (c1 c2 d1 d2 : Dot)
    (hle : get_dist_between_dots d1 d2 ≤ get_dist_between_dots c1 c2)
    (hlink : heuristicA_links avg c1 c2) : heuristicA_links avg d1 d2 := by
  unfold heuristicA_links at hlink ⊢
  rcases lt_trichotomy avg 0 with hneg | hzero | hpos
  · have hnn : 0 ≤ get_dist_between_dots d1 d2 := Real.sqrt_nonneg _
    have : get_dist_between_dots d1 d2 / avg ≤ 0 :=
      div_nonpos_of_nonneg_of_nonpos hnn hneg.le
    linarith
  · rw [hzero, div_zero]; norm_num
  · exact le_trans ((div_le_div_iff_of_pos_right hpos).mpr hle) hlink

/-- Witness for C8: with average width 1, the pair at distance 1 is linked and
so is the pair at distance 0. -/
theorem C8_heuristicA_monotone_witness :
    get_dist_between_dots ((0 : ℝ), (0 : ℝ)) ((0 : ℝ), (0 : ℝ)) ≤
      get_dist_between_dots ((0 : ℝ), (0 : ℝ)) ((1 : ℝ), (0 : ℝ)) ∧
    heuristicA_links 1 ((0 : ℝ), (0 : ℝ)) ((1 : ℝ), (0 : ℝ)) ∧
    heuristicA_links 1 ((0 : ℝ), (0 : ℝ)) ((0 : ℝ), (0 : ℝ)) := by
  have h0 : get_dist_between_dots ((0 : ℝ), (0 : ℝ)) ((0 : ℝ), (0 : ℝ)) = 0 :=
    dist_eval le_rfl (by norm_num)
  have h1 : get_dist_between_dots ((0 : ℝ), (0 : ℝ)) ((1 : ℝ), (0 : ℝ)) = 1 :=
    dist_eval zero_le_one (by norm_num)
  have hle : get_dist_between_dots ((0 : ℝ), (0 : ℝ)) ((0 : ℝ), (0 : ℝ)) ≤
      get_dist_between_dots ((0 : ℝ), (0 : ℝ)) ((1 : ℝ), (0 : ℝ)) := by
    rw [h0, h1]; norm_num
  have hlink : heuristicA_links 1 ((0 : ℝ), (0 : ℝ)) ((1 : ℝ), (0 : ℝ)) := by
    unfold heuristicA_links; rw [h1]; norm_num
  exact ⟨hle, hlink, C8_heuristicA_monotone 1 _ _ _ _ hle hlink⟩

/-! ## Claim C9 -/

/-- C9: heuristic B divides by the row height `top + bottom`.  For a row of
nonzero height the pairwise test is total (it returns a value for every valid
dot pair), while for a row of zero height the division by zero aborts the
public grouping interface `predict_neighbor_cells_2` (modelled by `none`)
whenever the row carries at least one cell pair. -/
theorem C9_heuristicB_height (r : MatrixRow) :
    (r.top + r.bottom ≠ 0 → ∀ i j, r.vectors_list ≠ [] →
      i < r.vectors_list.length + 1 → j < r.vectors_list.length + 1 →
      ∃ b, is_dots_come_together r i j = some b) ∧
    (r.top + r.bottom = 0 → 2 ≤ r.voronoi_cells.length →
      predict_neighbor_cells_2 r = none) := by
  constructor
  · intro hh i j hvne hi hj
    unfold is_dots_come_together
    rw [if_neg hh]
    cases hvl : r.vectors_list with
    | nil => cases hvne hvl
    | cons v0 vs =>
        have hi' : i < (v0.begin :: (v0 :: vs).map Vec.end_).length := by
          rw [hvl] at hi; simpa using hi
        have hj' : j < (v0.begin :: (v0 :: vs).map Vec.end_).length := by
          rw [hvl] at hj; simpa using hj
        simp only [List.get?_eq_get hi', List.get?_eq_get hj']
        exact ⟨_, rfl⟩
  · intro hh hlen
    obtain ⟨a, b, t, hcells⟩ : ∃ a b t, r.voronoi_cells = a :: b :: t := by
      cases hcv : r.voronoi_cells with
      | nil => rw [hcv] at hlen; simp at hlen
      | cons a rest =>
          cases rest with
          | nil => rw [hcv] at hlen; simp at hlen
          | cons b t => exact ⟨a, b, t, rfl⟩
    have hnone : is_dots_come_together r 0 1 = none := by
      unfold is_dots_come_together; rw [if_pos hh]
    unfold predict_neighbor_cells_2
    rw [hcells]
    simp [predictPass2, hnone]

/-- Witness for C9: the tall row's pairwise test is defined, the flat row's
grouping pass fails. -/
theorem C9_heuristicB_height_witness :
    (∃ b, is_dots_come_together c9TallRow 0 1 = some b) ∧
    predict_neighbor_cells_2 c9FlatRow = none := by
  constructor
  · exact (C9_heuristicB_height c9TallRow).1 (by norm_num [c9TallRow]) 0 1
      (by simp [c9TallRow]) (by simp [c9TallRow]) (by simp [c9TallRow])
  · exact (C9_heuristicB_height c9FlatRow).2 (by norm_num [c9FlatRow]) (by simp [c9FlatRow])

/-! ## Claim C6 -/

/-- C6: `calculate_width` over the allow-listed neighbors — exactly one match
sets the width to the distance from the cell's center to the intersection of
that neighbor's boundary segment with the horizontal line through the center;
exactly two matches set it to the minimum of the two such distances; any other
match count surfaces the distinct topology error `badNeighborCount`
(`AttributeError` in the source, with no handler in any caller). -/
theorem C6_calculate_width (c : Cell) (ids : List ℕ) :
    (∀ n p, filterIds c ids = [n] → distToNeighbor c n = some p →
      calculate_width c ids = .ok (get_dist_between_dots p c.center)) ∧
    (∀ n1 n2 p1 p2, filterIds c ids = [n1, n2] →
      distToNeighbor c n1 = some p1 → distToNeighbor c n2 = some p2 →
      calculate_width c ids =
        .ok (min (get_dist_between_dots p1 c.center) (get_dist_between_dots p2 c.center))) ∧
    ((filterIds c ids).length ≠ 1 → (filterIds c ids).length ≠ 2 →
      calculate_width c ids = .error .badNeighborCount) := by
  refine ⟨?_, ?_, ?_⟩
  · intro n p hns hd
    unfold calculate_width
    rw [hns]
    simp only [hd]
  · intro n1 n2 p1 p2 hns h1 h2
    unfold calculate_width
    rw [hns]
    simp only [h1, h2]
  · intro h1 h2
    cases hns : filterIds c ids with
    | nil => unfold calculate_width; rw [hns]
    | cons a t =>
        cases t with
        | nil => exact absurd (by rw [hns]; rfl : (filterIds c ids).length = 1) h1
        | cons b t2 =>
            cases t2 with
            | nil => exact absurd (by rw [hns]; rfl : (filterIds c ids).length = 2) h2
            | cons d t3 => unfold calculate_width; rw [hns]

/-- Witness for C6 at a concrete cell: one allow-listed neighbor whose segment
is the vertical line `x = 1`, center at the origin, width 1. -/
theorem C6_calculate_width_witness : calculate_width c6Cell [1] = .ok 1 := by
  have hfilter : filterIds c6Cell [1] = [⟨0, 1, (1, -1), (1, 1), true⟩] := by
    simp [filterIds, c6Cell]
  have hinter : distToNeighbor c6Cell ⟨0, 1, (1, -1), (1, 1), true⟩ =
      some ((1 : ℝ), (0 : ℝ)) := by
    unfold distToNeighbor line_intersection c6Cell
    norm_num
  have h := (C6_calculate_width c6Cell [1]).1 ⟨0, 1, (1, -1), (1, 1), true⟩ (1, 0)
    hfilter hinter
  rw [h]
  have hdist : get_dist_between_dots ((1 : ℝ), (0 : ℝ)) ((0 : ℝ), (0 : ℝ)) = 1 :=
    dist_eval zero_le_one (by norm_num)
  have hcen : c6Cell.center = ((0 : ℝ), (0 : ℝ)) := rfl
  rw [hcen, hdist]

/-! ## Claim C7 -/

/-- Counterexample to C7: for the slanted band `ce7Row` and the dot `(5, 5)`
(which is exactly the quadrilateral's centroid, so the spec's centroid test
accepts it), the code's membership test rejects it — the code's reference
point `(5, 0)` is not the centroid and lies outside the band.  Hence
`is_dot_inside_row` is not equivalent to the centroid-based area test the
claim states. -/
theorem C7_counterexample :
    specCentroidTest ce7Row ((5 : ℝ), (5 : ℝ)) ∧
    ¬ is_dot_inside_row ce7Row ((5 : ℝ), (5 : ℝ)) := by
  have h1 : bandCorners ce7Row = [((0 : ℝ), (11 : ℝ)), (10, 1), (10, -1), (0, 9)] := by
    simp only [bandCorners, final_vector, ce7Row]
    norm_num
  constructor
  · simp only [specCentroidTest]
    rw [h1]
    norm_num
  · simp only [is_dot_inside_row, final_vector, ce7Row, get_triangle_square]
    norm_num [abs_of_nonneg, abs_of_nonpos]

/-- Amended C7: the membership test compares the dot's area sum against the
sum at the code's reference point `((x1.x + x2.x)/2, (x2.y + x3.y)/2)` — the
midpoint construction of line 55 — not against the quadrilateral's centroid. -/
theorem C7_amended_middle_test (r : MatrixRow) (p : Dot) :
    is_dot_inside_row r p ↔ specMiddleTest r p := by
  simp only [is_dot_inside_row, specMiddleTest, bandCorners, areaSumAt,
    List.tail_cons, List.take_succ_cons, List.take_zero, List.cons_append,
    List.nil_append, List.zip_cons_cons, List.zip_nil_right, List.map_cons,
    List.map_nil, List.sum_cons, List.sum_nil]
  ring_nf

/-! ## Claims C4 and C5 — the Voronoi cell graph -/

theorem lstsqFit_comm (p q : Dot) : lstsqFit p q = lstsqFit q p := by
  unfold lstsqFit
  by_cases h : p.1 = q.1
  · rw [if_pos h, if_pos h.symm, h]
    have : p.2 + q.2 = q.2 + p.2 := by ring
    rw [this]
  · have h' : ¬(q.1 = p.1) := fun hh => h hh.symm
    rw [if_neg h, if_neg h']
    have hne : q.1 - p.1 ≠ 0 := sub_ne_zero.mpr (fun hh => h' hh)
    have hne' : p.1 - q.1 ≠ 0 := sub_ne_zero.mpr (fun hh => h hh)
    have hm : (q.2 - p.2) / (q.1 - p.1) = (p.2 - q.2) / (p.1 - q.1) := by
      rw [div_eq_div_iff hne hne']; ring
    refine Prod.ext hm ?_
    show p.2 - (q.2 - p.2) / (q.1 - p.1) * p.1 = q.2 - (p.2 - q.2) / (p.1 - q.1) * q.1
    rw [← hm]
    field_simp
    ring

theorem synthDotEnd_comm (c1 c2 s : Dot) : synthDotEnd c1 c2 s = synthDotEnd c2 c1 s := by
  simp only [synthDotEnd]
  rw [lstsqFit_comm c1 c2, max_comm c1.1 c2.1, min_comm c1.1 c2.1]

theorem mkCellNeighbor_neighbor_id (centers : List Dot) (cid nid : ℕ) (s : Dot)
    (e? : Option Dot) : (mkCellNeighbor centers cid nid s e?).neighbor_id = nid := by
  cases e? <;> rfl

theorem mkCellNeighbor_start_symm (centers : List Dot) (cid nid : ℕ) (s : Dot)
    (e? : Option Dot) :
    (mkCellNeighbor centers cid nid s e?).dot_start =
      (mkCellNeighbor centers nid cid s e?).dot_start := by
  cases e? <;> rfl

theorem mkCellNeighbor_end_symm (centers : List Dot) (cid nid : ℕ) (s : Dot)
    (e? : Option Dot) :
    (mkCellNeighbor centers cid nid s e?).dot_end =
      (mkCellNeighbor centers nid cid s e?).dot_end := by
  cases e? with
  | some e => rfl
  | none => simp [mkCellNeighbor, synthDotEnd_comm]

theorem getD_map_lt {α β : Type _} (f : α → β) (l : List α) (j : ℕ) (h : j < l.length)
    (d : β) (d' : α) : (l.map f).getD j d = f (l.getD j d') := by
  induction l generalizing j with
  | nil => simp at h
  | cons a t ih =>
      cases j with
      | zero => rfl
      | succ j => exact ih j (by simpa using h)

theorem appendNeighbor_length (cells : List Cell) (cid : ℕ) (cn : CellNeighbor) :
    (appendNeighbor cells cid cn).length = cells.length := by
  simp [appendNeighbor]

theorem appendNeighbor_id (cells : List Cell) (cid : ℕ) (cn : CellNeighbor)
    (j : ℕ) (hj : j < cells.length) :
    ((appendNeighbor cells cid cn).getD j junkCell).id = (cells.getD j junkCell).id := by
  unfold appendNeighbor
  rw [getD_map_lt _ _ _ hj _ junkCell]
  split_ifs <;> rfl

theorem appendNeighbor_wf (cells : List Cell) (cid : ℕ) (cn : CellNeighbor)
    (hwf : CellsWF cells) : CellsWF (appendNeighbor cells cid cn) := by
  intro j hj
  rw [appendNeighbor_length] at hj
  rw [appendNeighbor_id _ _ _ _ hj]
  exact hwf j hj

theorem appendNeighbor_nbrs (cells : List Cell) (cid : ℕ) (cn : CellNeighbor)
    (hwf : CellsWF cells) (j : ℕ) (hj : j < cells.length) :
    ((appendNeighbor cells cid cn).getD j junkCell).neighbors =
      (cells.getD j junkCell).neighbors ++ (if j = cid then [cn] else []) := by
  unfold appendNeighbor
  rw [getD_map_lt _ _ _ hj _ junkCell]
  by_cases hc : (cells.getD j junkCell).id = cid
  · have hjc : j = cid := by rw [← hwf j hj, hc]
    rw [if_pos hc, if_pos hjc]
  · have hjc : ¬(j = cid) := by rw [← hwf j hj]; exact hc
    rw [if_neg hc, if_neg hjc, List.append_nil]

theorem appendPair_sym (cells : List Cell) (p q : ℕ) (cn1 cn2 : CellNeighbor)
    (hwf : CellsWF cells) (hpq : p ≠ q)
    (h1 : cn1.neighbor_id = q) (h2 : cn2.neighbor_id = p)
    (hs : cn1.dot_start = cn2.dot_start) (he : cn1.dot_end = cn2.dot_end)
    (hsym : ∀ a b, a < cells.length → b < cells.length → a ≠ b →
      neighborSegs cells a b = neighborSegs cells b a)
    (a b : ℕ) (ha : a < cells.length) (hb : b < cells.length) (hab : a ≠ b) :
    neighborSegs (appendNeighbor (appendNeighbor cells p cn1) q cn2) a b =
      neighborSegs (appendNeighbor (appendNeighbor cells p cn1) q cn2) b a := by
  have hwf1 : CellsWF (appendNeighbor cells p cn1) := appendNeighbor_wf _ _ _ hwf
  have hnbrs : ∀ j, j < cells.length →
      ((appendNeighbor (appendNeighbor cells p cn1) q cn2).getD j junkCell).neighbors =
        ((cells.getD j junkCell).neighbors ++ (if j = p then [cn1] else [])) ++
          (if j = q then [cn2] else []) := by
    intro j hj
    rw [appendNeighbor_nbrs _ _ _ hwf1 j (by rw [appendNeighbor_length]; exact hj),
      appendNeighbor_nbrs _ _ _ hwf j hj]
  have hbase := hsym a b ha hb hab
  unfold neighborSegs at hbase ⊢
  rw [hnbrs a ha, hnbrs b hb, List.filter_append, List.filter_append,
    List.filter_append, List.filter_append, List.map_append, List.map_append,
    List.map_append, List.map_append, List.append_assoc, List.append_assoc, hbase]
  congr 1
  by_cases hap : a = p
  · have haq : ¬a = q := fun hh => hpq (hap.symm.trans hh)
    have hbp : ¬b = p := fun hh => hab (hap.trans hh.symm)
    by_cases hbq : b = q
    · have h1b : cn1.neighbor_id = b := h1.trans hbq.symm
      have h2a : cn2.neighbor_id = a := h2.trans hap.symm
      simp [List.filter_cons, hap, haq, hbp, hbq, h1b, h2a, hs, he, hpq, Ne.symm hpq]
    · have h1b : ¬cn1.neighbor_id = b := fun hh => hbq (hh.symm.trans h1)
      simp [List.filter_cons, hap, haq, hbp, hbq, h1b, hpq, Ne.symm hpq]
  · by_cases haq : a = q
    · have hbq : ¬b = q := fun hh => hab (haq.trans hh.symm)
      by_cases hbp : b = p
      · have h2b : cn2.neighbor_id = b := h2.trans hbp.symm
        have h1a : cn1.neighbor_id = a := h1.trans haq.symm
        simp [List.filter_cons, hap, haq, hbp, hbq, h2b, h1a, hs, he, hpq, Ne.symm hpq]
      · have h2b : ¬cn2.neighbor_id = b := fun hh => hbp (hh.symm.trans h2)
        simp [List.filter_cons, hap, haq, hbp, hbq, h2b, hpq, Ne.symm hpq]
    · by_cases hbp : b = p
      · have h1a : ¬cn1.neighbor_id = a := fun hh => haq (hh.symm.trans h1)
        simp [List.filter_cons, hap, haq, hbp, h1a, hpq, Ne.symm hpq]
      · by_cases hbq : b = q
        · have h2a : ¬cn2.neighbor_id = a := fun hh => hap (hh.symm.trans h2)
          simp [List.filter_cons, hap, haq, hbp, hbq, h2a, hpq, Ne.symm hpq]
        · simp [List.filter_cons, hap, haq, hbp, hbq, hpq, Ne.symm hpq]

theorem processRidge_length (dots vertices : List Dot) (cells : List Cell) (r : VorRidge) :
    (processRidge dots vertices cells r).length = cells.length := by
  unfold processRidge
  split_ifs <;> rw [appendNeighbor_length, appendNeighbor_length]

theorem processRidge_wf (dots vertices : List Dot) (cells : List Cell) (r : VorRidge)
    (hwf : CellsWF cells) : CellsWF (processRidge dots vertices cells r) := by
  unfold processRidge
  split_ifs <;> exact appendNeighbor_wf _ _ _ (appendNeighbor_wf _ _ _ hwf)

theorem processRidge_sym (dots vertices : List Dot) (cells : List Cell) (r : VorRidge)
    (hwf : CellsWF cells) (hpne : r.p1 ≠ r.p2)
    (hsym : ∀ a b, a < cells.length → b < cells.length → a ≠ b →
      neighborSegs cells a b = neighborSegs cells b a) :
    ∀ a b, a < cells.length → b < cells.length → a ≠ b →
      neighborSegs (processRidge dots vertices cells r) a b =
        neighborSegs (processRidge dots vertices cells r) b a := by
  intro a b ha hb hab
  simp only [processRidge]
  by_cases hinf : r.v1 = -1 ∨ r.v2 = -1
  · simp only [if_pos hinf]
    exact appendPair_sym cells r.p1 r.p2 _ _ hwf hpne
      (mkCellNeighbor_neighbor_id _ _ _ _ _) (mkCellNeighbor_neighbor_id _ _ _ _ _)
      (mkCellNeighbor_start_symm _ _ _ _ _) (mkCellNeighbor_end_symm _ _ _ _ _)
      hsym a b ha hb hab
  · simp only [if_neg hinf]
    exact appendPair_sym cells r.p1 r.p2 _ _ hwf hpne
      (mkCellNeighbor_neighbor_id _ _ _ _ _) (mkCellNeighbor_neighbor_id _ _ _ _ _)
      (mkCellNeighbor_start_symm _ _ _ _ _) (mkCellNeighbor_end_symm _ _ _ _ _)
      hsym a b ha hb hab

theorem foldRidges_sym (dots vertices : List Dot) (rs : List VorRidge)
    (hval : ∀ r ∈ rs, r.p1 ≠ r.p2) :
    ∀ cells : List Cell, CellsWF cells →
      (∀ a b, a < cells.length → b < cells.length → a ≠ b →
        neighborSegs cells a b = neighborSegs cells b a) →
      (rs.foldl (processRidge dots vertices) cells).length = cells.length ∧
      CellsWF (rs.foldl (processRidge dots vertices) cells) ∧
      (∀ a b, a < cells.length → b < cells.length → a ≠ b →
        neighborSegs (rs.foldl (processRidge dots vertices) cells) a b =
          neighborSegs (rs.foldl (processRidge dots vertices) cells) b a) := by
  induction rs with
  | nil => intro cells hwf hsym; exact ⟨rfl, hwf, hsym⟩
  | cons r rs ih =>
      intro cells hwf hsym
      have hr := hval r (by simp)
      have hval' : ∀ r' ∈ rs, r'.p1 ≠ r'.p2 := fun r' hr' => hval r' (by simp [hr'])
      have hlen := processRidge_length dots vertices cells r
      have step := ih hval' (processRidge dots vertices cells r)
        (processRidge_wf dots vertices cells r hwf)
        (by
          intro a b ha hb hab
          rw [hlen] at ha hb
          exact processRidge_sym dots vertices cells r hwf hr hsym a b ha hb hab)
      refine ⟨by rw [List.foldl_cons, step.1, hlen], by rw [List.foldl_cons]; exact step.2.1, ?_⟩
      intro a b ha hb hab
      rw [List.foldl_cons]
      exact step.2.2 a b (by rw [hlen]; exact ha) (by rw [hlen]; exact hb) hab

theorem emptyCells_length (dots : List Dot) : (emptyCells dots).length = dots.length := by
  simp [emptyCells]

theorem emptyCells_wf (dots : List Dot) : CellsWF (emptyCells dots) := by
  intro j hj
  rw [emptyCells_length] at hj
  unfold emptyCells
  rw [getD_map_lt _ _ _ (by simpa using hj) _ (0, (0, 0))]
  have : dots.enum.getD j (0, (0, 0)) = (j, dots.getD j (0, 0)) := by
    have h1 : dots.enum[j]? = some (j, dots[j]) := by
      rw [List.getElem?_enum, List.getElem?_eq_getElem hj]
      rfl
    rw [List.getD_eq_getElem?_getD, h1]
    rw [List.getD_eq_getElem?_getD, List.getElem?_eq_getElem hj]
    rfl
  rw [this]

theorem emptyCells_nbrs (dots : List Dot) (j : ℕ) (hj : j < dots.length) :
    ((emptyCells dots).getD j junkCell).neighbors = [] := by
  unfold emptyCells
  rw [getD_map_lt _ _ _ (by simpa using hj) _ (0, (0, 0))]

/-- C5: after `VoronoiTesselation.process`, adjacency is symmetric — for any
two distinct cells `a` and `b` of a well-formed diagram, the boundary segments
of `a`'s neighbors pointing at `b` equal those of `b`'s neighbors pointing at
`a` (including synthesized endpoints of unbounded ridges), and in particular
`a` holds a `CellNeighbor` referencing `b` iff `b` holds one referencing
`a`. -/
theorem C5_adjacency_symmetric (dots : List Dot) (diag : VorDiagram)
    (hvalid : ValidDiagram dots.length diag)
    (a b : ℕ) (ha : a < dots.length) (hb : b < dots.length) (hab : a ≠ b) :
    neighborSegs (voronoiProcess dots diag) a b =
      neighborSegs (voronoiProcess dots diag) b a ∧
    ((∃ cn ∈ ((voronoiProcess dots diag).getD a junkCell).neighbors, cn.neighbor_id = b) ↔
      (∃ cn ∈ ((voronoiProcess dots diag).getD b junkCell).neighbors, cn.neighbor_id = a)) := by
  have hval : ∀ r ∈ diag.ridges, r.p1 ≠ r.p2 := fun r hr => (hvalid r hr).2.2.1
  have base : ∀ x y, x < (emptyCells dots).length → y < (emptyCells dots).length → x ≠ y →
      neighborSegs (emptyCells dots) x y = neighborSegs (emptyCells dots) y x := by
    intro x y hx hy _
    rw [emptyCells_length] at hx hy
    unfold neighborSegs
    rw [emptyCells_nbrs dots x hx, emptyCells_nbrs dots y hy]
    rfl
  have main := foldRidges_sym dots diag.vertices diag.ridges hval (emptyCells dots)
    (emptyCells_wf dots) base
  have hsegs : neighborSegs (voronoiProcess dots diag) a b =
      neighborSegs (voronoiProcess dots diag) b a := by
    exact main.2.2 a b (by rw [emptyCells_length]; exact ha)
      (by rw [emptyCells_length]; exact hb) hab
  refine ⟨hsegs, ?_⟩
  have hiff : ∀ x y : ℕ,
      (∃ cn ∈ ((voronoiProcess dots diag).getD x junkCell).neighbors, cn.neighbor_id = y) ↔
        neighborSegs (voronoiProcess dots diag) x y ≠ [] := by
    intro x y
    unfold neighborSegs
    constructor
    · rintro ⟨cn, hmem, hid⟩ hempty
      rw [List.map_eq_nil_iff] at hempty
      have := List.filter_eq_nil_iff.mp hempty cn hmem
      simp [hid] at this
    · intro hne
      rcases hfil : ((voronoiProcess dots diag).getD x junkCell).neighbors.filter
          (fun cn => cn.neighbor_id = y) with _ | ⟨cn, t⟩
      · rw [hfil] at hne; simp at hne
      · have hmem : cn ∈ ((voronoiProcess dots diag).getD x junkCell).neighbors.filter
            (fun cn => cn.neighbor_id = y) := by rw [hfil]; simp
        have hmem' := List.mem_filter.mp hmem
        exact ⟨cn, hmem'.1, by simpa using hmem'.2⟩
  rw [hiff a b, hiff b a, hsegs]

/-- Witness for C5 at the unit-square diagram: its validity, and the symmetry
instance for the adjacent cells 0 and 1. -/
theorem C5_adjacency_symmetric_witness :
    ValidDiagram unitSquareDots.length unitSquareDiag ∧
    neighborSegs (voronoiProcess unitSquareDots unitSquareDiag) 0 1 =
      neighborSegs (voronoiProcess unitSquareDots unitSquareDiag) 1 0 := by
  have hvalid : ValidDiagram unitSquareDots.length unitSquareDiag := by
    unfold ValidDiagram unitSquareDots unitSquareDiag
    intro r hr
    fin_cases hr <;> refine ⟨by norm_num, by norm_num, by norm_num, ?_, ?_, ?_⟩ <;> decide
  exact ⟨hvalid,
    (C5_adjacency_symmetric unitSquareDots unitSquareDiag hvalid 0 1
      (by norm_num [unitSquareDots]) (by norm_num [unitSquareDots]) (by norm_num)).1⟩

theorem synth_01 : synthDotEnd ((0 : ℝ), (0 : ℝ)) (0, 1) (1 / 2, 1 / 2) = (0, 0) := by
  simp only [synthDotEnd, lstsqFit]
  norm_num

theorem synth_03 : synthDotEnd ((0 : ℝ), (0 : ℝ)) (1, 0) (1 / 2, 1 / 2) = (0, 0) := by
  simp only [synthDotEnd, lstsqFit]
  norm_num

theorem synth_12 : synthDotEnd ((0 : ℝ), (1 : ℝ)) (1, 1) (1 / 2, 1 / 2) = (0, 0) := by
  simp only [synthDotEnd, lstsqFit]
  norm_num

theorem synth_23 : synthDotEnd ((1 : ℝ), (1 : ℝ)) (1, 0) (1 / 2, 1 / 2) = (1, -(3 / 2)) := by
  simp only [synthDotEnd, lstsqFit]
  norm_num

/-- The evaluated cell graph of the unit-square scenario: each cell carries the
two `CellNeighbor`s of its edge-adjacent generators, all unbounded, with the
synthesized endpoints produced by the bisector solve (three of them degenerate
through the division by the zero coefficient, one at `(1, -3/2)`). -/
theorem unitSquareCells_eval :
    unitSquareCells =
      [{ id := 0, center := (0, 0), neighbors :=
          [⟨0, 1, (1 / 2, 1 / 2), (0, 0), false⟩, ⟨0, 3, (1 / 2, 1 / 2), (0, 0), false⟩] },
       { id := 1, center := (0, 1), neighbors :=
          [⟨1, 0, (1 / 2, 1 / 2), (0, 0), false⟩, ⟨1, 2, (1 / 2, 1 / 2), (0, 0), false⟩] },
       { id := 2, center := (1, 1), neighbors :=
          [⟨2, 1, (1 / 2, 1 / 2), (0, 0), false⟩, ⟨2, 3, (1 / 2, 1 / 2), (1, -(3 / 2)), false⟩] },
       { id := 3, center := (1, 0), neighbors :=
          [⟨3, 0, (1 / 2, 1 / 2), (0, 0), false⟩, ⟨3, 2, (1 / 2, 1 / 2), (1, -(3 / 2)), false⟩] }] := by
  unfold unitSquareCells voronoiProcess unitSquareDiag unitSquareDots emptyCells
  simp only [List.enum, List.enumFrom, List.map, List.foldl]
  unfold processRidge appendNeighbor mkCellNeighbor
  norm_num
  refine ⟨⟨?_, ?_⟩, ⟨?_, ?_⟩, ⟨?_, ?_⟩, ?_, ?_⟩
  · exact synth_01
  · exact synth_03
  · exact (synthDotEnd_comm _ _ _).trans synth_01
  · exact synth_12
  · exact (synthDotEnd_comm _ _ _).trans synth_12
  · exact synth_23
  · exact (synthDotEnd_comm _ _ _).trans synth_03
  · exact (synthDotEnd_comm _ _ _).trans synth_23

theorem synthF_01 :
    synthDotEndF ((0 : ℝ), (0 : ℝ)) (0, 1) (1 / 2, 1 / 2) = some (0, (⊤ : EReal)) := by
  simp only [synthDotEndF, lstsqFit]
  norm_num

theorem synthF_03 :
    synthDotEndF ((0 : ℝ), (0 : ℝ)) (1, 0) (1 / 2, 1 / 2) = some (0, (⊤ : EReal)) := by
  simp only [synthDotEndF, lstsqFit]
  norm_num

theorem synthF_12 :
    synthDotEndF ((0 : ℝ), (1 : ℝ)) (1, 1) (1 / 2, 1 / 2) = some (0, (⊤ : EReal)) := by
  simp only [synthDotEndF, lstsqFit]
  norm_num

theorem synthF_23 :
    synthDotEndF ((1 : ℝ), (1 : ℝ)) (1, 0) (1 / 2, 1 / 2) =
      some (1, ((-(3 / 2) : ℝ) : EReal)) := by
  simp only [synthDotEndF, lstsqFit]
  norm_num

/-- Counterexample to C4's synthesized-endpoint clause: the ridge between the
bottom generators `(0,0)` and `(1,0)` extends from its finite vertex
`(1/2,1/2)` downwards (towards and past the two centers' midpoint `(1/2,0)`),
so the claim puts its replacement endpoint below the box (`y < 0`); but the
fitted line through the two centers is horizontal, the solve divides the
negative numerator by the float `-0.0`, and the program's endpoint is
`(0, +inf)` — not below the box. -/
theorem C4_counterexample :
    ∃ r ∈ unitSquareDiag.ridges, ∃ e,
      ridgeSynthEndpoint unitSquareDots unitSquareDiag.vertices r = some e ∧
      ¬ specAwayOutside (unitSquareDots.getD r.p1 (0, 0)) (unitSquareDots.getD r.p2 (0, 0))
          (unitSquareDiag.vertices.getD (if r.v1 = -1 then r.v2 else r.v1).toNat (0, 0)) e := by
  refine ⟨⟨0, 3, -1, 0⟩, by simp [unitSquareDiag], (0, (⊤ : EReal)), ?_, ?_⟩
  · show ridgeSynthEndpoint unitSquareDots [(1 / 2, 1 / 2)] ⟨0, 3, -1, 0⟩ = _
    simp only [ridgeSynthEndpoint, unitSquareDots]
    norm_num
    exact synthF_03
  · intro h
    have h3 := h.2.2.1 (by norm_num [unitSquareDots, unitSquareDiag])
    exact not_top_lt h3

/-! ## Claim C2 -/

theorem sqrt_10000 : Real.sqrt 10000 = 100 := sqrt_of_sq (by norm_num) (by norm_num)

theorem sqrt_40000 : Real.sqrt 40000 = 200 := sqrt_of_sq (by norm_num) (by norm_num)

theorem sqrt_90000 : Real.sqrt 90000 = 300 := sqrt_of_sq (by norm_num) (by norm_num)

theorem sqrt_62500 : Real.sqrt 62500 = 250 := sqrt_of_sq (by norm_num) (by norm_num)

/-- A vertical chain vector has cosine 0 against the horizontal. -/
theorem cos_vertical (x y1 y2 : ℝ) :
    get_angle_between_vectors ⟨(x, y1), (x, y2)⟩ xAxisVec = 0 := by
  unfold get_angle_between_vectors vecDx vecDy xAxisVec
  norm_num

theorem chainTail_getD (p : Dot) (ms : List Dot) (j : ℕ) (hj : j < ms.length) :
    (chainTail p ms).getD j junkVec =
      Vec.mk ((p :: ms).getD j (0, 0)) (ms.getD j (0, 0)) := by
  induction ms generalizing p j with
  | nil => simp at hj
  | cons m t ih =>
      cases j with
      | zero => rfl
      | succ j => exact ih m j (by simpa using hj)

theorem chainVecs_getD_succ (ms : List Dot) (j : ℕ) (hj : j + 1 < ms.length) :
    (chainVecs ms).getD (j + 1) junkVec =
      Vec.mk (ms.getD j (0, 0)) (ms.getD (j + 1) (0, 0)) := by
  cases ms with
  | nil => simp at hj
  | cons m t =>
      show (chainTail m t).getD j junkVec = _
      rw [chainTail_getD m t j (by simpa using hj)]
      rfl

/-- Amended C2: the loop item at iteration `j` pairs the vector that ends at
stroke `j+1`'s middle dot with the corner dots of stroke `j` — the stroke at
the vector's begin point — because `process` zips `vectors[1:]` against the
unshifted `top_list`/`bottom_list`.  A continuation step therefore folds the
preceding stroke's corners into the row, and the last stroke's corners are
folded only by the post-loop fixup. -/
theorem C2_amended_pairing (hs : List Hatch) (j : ℕ) (hj : j + 1 < hs.length) :
    (stepItems (ingest hs)).getD j junkItem =
      (j, ((ingest hs).cos_list.getD j 0,
        ⟨middleOf (hs.getD j junkHatch), middleOf (hs.getD (j + 1) junkHatch)⟩),
        ((hs.getD j junkHatch).top, (hs.getD j junkHatch).bottom)) := by
  obtain ⟨hv, ht, hb, hc⟩ := ingest_spec hs
  have hlv : (ingest hs).vectors.length = hs.length := by
    rw [hv, chainVecs_length, List.length_map]
  have hlc : (ingest hs).cos_list.length = hs.length - 1 := by
    rw [hc, List.length_map, List.length_drop, chainVecs_length, List.length_map]
  have hlt : (ingest hs).top_list.length = hs.length := by rw [ht, List.length_map]
  have hlb : (ingest hs).bottom_list.length = hs.length := by rw [hb, List.length_map]
  have hjc : j < (ingest hs).cos_list.length := by omega
  have hjd : j < ((ingest hs).vectors.drop 1).length := by
    rw [List.length_drop, hlv]; omega
  have hjz1 : j < ((ingest hs).cos_list.zip ((ingest hs).vectors.drop 1)).length := by
    rw [List.length_zip]; omega
  have hjz2 : j < ((ingest hs).top_list.zip (ingest hs).bottom_list).length := by
    rw [List.length_zip]; omega
  have hjfull : j < (((ingest hs).cos_list.zip ((ingest hs).vectors.drop 1)).zip
      ((ingest hs).top_list.zip (ingest hs).bottom_list)).length := by
    rw [List.length_zip]; omega
  unfold stepItems
  rw [enum_getD _ _ hjfull _ ((0, junkVec), ((0, 0), (0, 0))),
    zip_getD _ _ _ hjz1 hjz2 _ (0, junkVec) ((0, 0), (0, 0)),
    zip_getD _ _ _ hjc hjd _ 0 junkVec,
    zip_getD _ _ _ (by omega) (by omega) _ (0, 0) (0, 0),
    drop_one_getD, hv,
    chainVecs_getD_succ _ _ (by rw [List.length_map]; exact hj),
    getD_map_lt middleOf hs j (by omega) _ junkHatch,
    getD_map_lt middleOf hs (j + 1) hj _ junkHatch,
    ht, hb,
    getD_map_lt Hatch.top hs j (by omega) _ junkHatch,
    getD_map_lt Hatch.bottom hs j (by omega) _ junkHatch]

/-- Witness for C2's amended pairing at the concrete stream `ce2Hatches`,
iteration 0. -/
theorem C2_amended_pairing_witness :
    0 + 1 < ce2Hatches.length ∧
    (stepItems (ingest ce2Hatches)).getD 0 junkItem =
      (0, ((ingest ce2Hatches).cos_list.getD 0 0,
        ⟨middleOf (ce2Hatches.getD 0 junkHatch), middleOf (ce2Hatches.getD 1 junkHatch)⟩),
        ((ce2Hatches.getD 0 junkHatch).top, (ce2Hatches.getD 0 junkHatch).bottom)) := by
  have hj : 0 + 1 < ce2Hatches.length := by norm_num [ce2Hatches]
  exact ⟨hj, C2_amended_pairing ce2Hatches 0 hj⟩

/-- The ingested state of the three-hatch stream: vertical chain through
`(0,0), (0,100), (0,200)` with top-corner distances `10, 3, 4` to the row
line. -/
theorem ce2_state :
    (ingest ce2Hatches).vectors =
      [⟨(0, 0), (0, 0)⟩, ⟨(0, 0), (0, 100)⟩, ⟨(0, 100), (0, 200)⟩] ∧
    (ingest ce2Hatches).top_list = [(10, 60), (3, 160), (4, 260)] ∧
    (ingest ce2Hatches).bottom_list = [(10, -60), (3, 40), (4, 140)] ∧
    (ingest ce2Hatches).cos_list = [0, 0] := by
  obtain ⟨hv, ht, hb, hc⟩ := ingest_spec ce2Hatches
  have hmid : ce2Hatches.map middleOf = [((0 : ℝ), (0 : ℝ)), (0, 100), (0, 200)] := by
    simp [ce2Hatches, middleOf]
    norm_num
  refine ⟨?_, ?_, ?_, ?_⟩
  · rw [hv, hmid]; simp [chainVecs, chainTail]
  · rw [ht]; simp [ce2Hatches]
  · rw [hb]; simp [ce2Hatches]
  · rw [hc, hmid]
    simp [chainVecs, chainTail, cos_vertical]
    exact cos_vertical 0 0 100

/-- The loop stream of the three-hatch run. -/
theorem ce2_items :
    stepItems (ingest ce2Hatches) =
      [(0, ((0 : ℝ), ⟨(0, 0), (0, 100)⟩), (((10 : ℝ), (60 : ℝ)), ((10 : ℝ), (-60 : ℝ)))),
       (1, ((0 : ℝ), ⟨(0, 100), (0, 200)⟩), (((3 : ℝ), (160 : ℝ)), ((3 : ℝ), (40 : ℝ))))] := by
  obtain ⟨hv, ht, hb, hc⟩ := ce2_state
  unfold stepItems
  rw [hv, ht, hb, hc]
  rfl

/-- Counterexample to C2: in the three-hatch vertical run, the extreme top
corner dot recorded on the single produced row is `(10, 60)` — the top corner
of stroke 0.  Under the claim as stated, the corners folded at the two
continuation iterations would be those of strokes 1 and 2 (the strokes whose
middles are the processed vectors' end points) and the fixup folds stroke 2's,
so stroke 0's corner could never be the recorded extreme. -/
theorem C2_counterexample :
    ((process (1 / 2) (ingest ce2Hatches)).rows.getD 0 junkRow).top_dot =
      some ((10 : ℝ), (60 : ℝ)) ∧
    (((10 : ℝ), (60 : ℝ)) : Dot) ≠ (ce2Hatches.getD 1 junkHatch).top ∧
    (((10 : ℝ), (60 : ℝ)) : Dot) ≠ (ce2Hatches.getD 2 junkHatch).top ∧
    (((10 : ℝ), (60 : ℝ)) : Dot) = (ce2Hatches.getD 0 junkHatch).top := by
  obtain ⟨hv, ht, hb, hc⟩ := ce2_state
  refine ⟨?_, by norm_num [ce2Hatches], by norm_num [ce2Hatches], by norm_num [ce2Hatches]⟩
  unfold process processLoop initLoopState
  rw [ce2_items, ht, hb, hv]
  simp only [List.foldl_cons, List.foldl_nil]
  norm_num [processStep, is_hatch_horizontal, updateLast, add_hatch, updateTop,
    updateBottom, final_vector, get_dist_to_straight, get_dist_between_dots,
    junkRow, junkVec, sqrt_10000, sqrt_40000, abs_of_nonneg, abs_of_nonpos]

/-! ## Claim C3 -/

/-- C3: the row-break branch of the `process` loop — when the lookahead skip
does not fire, the cosine strictly exceeds the configured threshold, and the
vector's end point lies inside the band of some existing row, the stroke is
assigned to that row by mere bookkeeping: the step reports it absorbed
(`is_added`/ghost flag set) and leaves every row, in particular the absorbing
row's `top` and `bottom`, completely unchanged. -/
theorem C3_absorption_no_disturbance (cfg : ℝ) (tops bots : List Dot) (ls : LoopState)
    (i : ℕ) (cos : ℝ) (v : Vec) (t b : Dot)
    (hlook : ¬(i + 1 < tops.length ∧
      is_hatch_horizontal (tops.getD (i + 1) (0, 0)).2 (bots.getD (i + 1) (0, 0)).2))
    (hcos : ¬cos ≤ cfg)
    (hfound : findAbsorbingRow v.end_ ls.rows = true) :
    (processStep cfg tops bots ls (i, (cos, v), (t, b))).rows = ls.rows ∧
    (processStep cfg tops bots ls (i, (cos, v), (t, b))).is_added = true ∧
    (processStep cfg tops bots ls (i, (cos, v), (t, b))).ever_absorbed = true := by
  unfold processStep processHatchNotCurrentRow
  simp only [hfound]
  simp [hcos]
  split_ifs with h
  · exact absurd h (by simpa using hlook)
  · simp

/-- Witness for C3 at a concrete absorption step: current vector
`(0,100) → (200,250)` with cosine `4/5 > 1/2`, whose end lies on the closed
row `c3Row`'s (degenerate) band line `x = 200`. -/
theorem C3_absorption_no_disturbance_witness :
    findAbsorbingRow (((200 : ℝ), (250 : ℝ)) : Dot) c3State.rows = true ∧
    ¬((4 : ℝ) / 5 ≤ 1 / 2) ∧
    (processStep (1 / 2) [((0 : ℝ), (0 : ℝ))] [((0 : ℝ), (0 : ℝ))] c3State
      (0, ((4 / 5 : ℝ), ⟨(0, 100), (200, 250)⟩), ((5, 160), (5, 40)))).rows =
      c3State.rows := by
  have hinside : is_dot_inside_row c3Row ((200 : ℝ), (250 : ℝ)) := by
    unfold is_dot_inside_row final_vector c3Row get_triangle_square
    norm_num
  have hfound : findAbsorbingRow (((200 : ℝ), (250 : ℝ)) : Dot) c3State.rows = true := by
    show findAbsorbingRow (((200 : ℝ), (250 : ℝ)) : Dot) [c3Row] = true
    unfold findAbsorbingRow
    rw [if_pos ⟨by norm_num [c3Row], by norm_num [c3Row], hinside⟩]
  have hcos : ¬((4 : ℝ) / 5 ≤ 1 / 2) := by norm_num
  have h := C3_absorption_no_disturbance (1 / 2) [((0 : ℝ), (0 : ℝ))] [((0 : ℝ), (0 : ℝ))]
    c3State 0 (4 / 5) ⟨(0, 100), (200, 250)⟩ (5, 160) (5, 40)
    (by norm_num) hcos hfound
  exact ⟨hfound, hcos, h.1⟩

/-- Amended C4: the unit-square tessellation produces exactly 4 cells, each
with exactly 2 neighbors, and every ridge of every cell marked unbounded
(`is_finite = false`); but the synthesized replacement endpoints, computed
with numpy's binary64 division semantics, are `(0, +inf)` for three of the
four ridges (the fitted line through the centers is horizontal, so the solve
divides a negative numerator by the float `-0.0`) and the finite `(1, -3/2)`
for the right pair (whose degenerate minimum-norm fit has slope `1/4`) — so
the endpoints do not all lie outside the square's bounding box on the side
away from the two centers: the bottom and right ridges extend downwards and
rightwards respectively, yet their endpoints are `(0, +inf)` and `(1, -3/2)`. -/
theorem C4_amended :
    unitSquareCells.length = 4 ∧
    unitSquareCells.map (fun c => c.neighbors.length) = [2, 2, 2, 2] ∧
    unitSquareCells.map (fun c => c.neighbors.map (fun cn => cn.is_finite)) =
      [[false, false], [false, false], [false, false], [false, false]] ∧
    unitSquareDiag.ridges.map (ridgeSynthEndpoint unitSquareDots unitSquareDiag.vertices) =
      [some (0, (⊤ : EReal)), some (0, (⊤ : EReal)), some (0, (⊤ : EReal)),
        some (1, ((-(3 / 2) : ℝ) : EReal))] := by
  rw [unitSquareCells_eval]
  refine ⟨rfl, rfl, rfl, ?_⟩
  simp only [unitSquareDiag, unitSquareDots, List.map_cons, List.map_nil,
    ridgeSynthEndpoint]
  norm_num
  exact ⟨synthF_01, synthF_03, synthF_12, synthF_23⟩

/-! ## Claim C1 -/

theorem updateTop_vectors_list (r : MatrixRow) (d : Dot) :
    (updateTop r d).vectors_list = r.vectors_list := by
  simp only [updateTop]; split_ifs <;> rfl

theorem updateBottom_vectors_list (r : MatrixRow) (d : Dot) :
    (updateBottom r d).vectors_list = r.vectors_list := by
  simp only [updateBottom]; split_ifs <;> rfl

theorem add_hatch_vectors_spec (r : MatrixRow) (v : Vec) (t b : Dot) :
    (add_hatch r v t b).vectors_list =
      if r.vectors_list.length = 1 ∧ r.is_vector_extended = false then
        [⟨(r.vectors_list.headD junkVec).begin, v.end_⟩]
      else r.vectors_list ++ [v] := by
  unfold add_hatch
  rw [updateBottom_vectors_list, updateTop_vectors_list]
  split_ifs <;> rfl

theorem getLastD_mem {α : Type _} (l : List α) (d : α) (h : l ≠ []) : l.getLastD d ∈ l := by
  induction l generalizing d with
  | nil => cases h rfl
  | cons a t ih =>
      rw [getLastD_cons_eq]
      cases t with
      | nil => simp [List.getLastD]
      | cons b t2 => exact List.mem_cons_of_mem _ (ih a (by simp))

theorem add_hatch_chain (r : MatrixRow) (v : Vec) (t b : Dot)
    (hch : ChainRow r) (hne : r.vectors_list ≠ [])
    (hbeg : v.begin = (r.vectors_list.getLastD junkVec).end_) :
    ChainRow (add_hatch r v t b) ∧ (add_hatch r v t b).vectors_list ≠ [] ∧
      ((add_hatch r v t b).vectors_list.getLastD junkVec).end_ = v.end_ := by
  unfold ChainRow at hch ⊢
  rw [add_hatch_vectors_spec]
  split_ifs with hext
  · exact ⟨List.chain'_singleton _, by simp, by simp⟩
  · refine ⟨?_, by simp, by rw [List.getLastD_concat]⟩
    refine List.Chain'.append hch (List.chain'_singleton _) ?_
    intro x hx y hy
    cases hl : r.vectors_list.getLast? with
    | none => exact absurd (List.getLast?_eq_none_iff.mp hl) hne
    | some w =>
        rw [hl] at hx
        have hxw : w = x := by simpa using hx
        have hyv : v = y := by simpa using hy
        rw [List.getLastD_eq_getLast?, hl] at hbeg
        rw [← hxw, ← hyv]
        exact hbeg.symm

theorem processStep_ever_mono (cfg : ℝ) (tops bots : List Dot) (ls : LoopState)
    (it : ℕ × (ℝ × Vec) × Dot × Dot)
    (h : (processStep cfg tops bots ls it).ever_absorbed = false) :
    ls.ever_absorbed = false := by
  simp only [processStep] at h
  split_ifs at h <;> first | exact h | exact (Bool.or_eq_false_iff.mp h).1

theorem foldl_ever_mono (cfg : ℝ) (tops bots : List Dot) :
    ∀ (items : List (ℕ × (ℝ × Vec) × Dot × Dot)) (ls : LoopState),
      (items.foldl (processStep cfg tops bots) ls).ever_absorbed = false →
      ls.ever_absorbed = false := by
  intro items
  induction items with
  | nil => intro ls h; exact h
  | cons it its ih =>
      intro ls h
      rw [List.foldl_cons] at h
      exact processStep_ever_mono cfg tops bots ls it (ih _ h)

theorem processStep_skip_eq (cfg : ℝ) (tops bots : List Dot) (ls : LoopState)
    (i : ℕ) (cos : ℝ) (v : Vec) (t b : Dot)
    (h1 : i + 1 < tops.length ∧
      is_hatch_horizontal (tops.getD (i + 1) (0, 0)).2 (bots.getD (i + 1) (0, 0)).2) :
    processStep cfg tops bots ls (i, (cos, v), (t, b)) =
      { ls with is_added := true, is_prev_horizontal := true } := by
  simp only [processStep]
  rw [if_pos h1]

theorem processStep_cont_eq (cfg : ℝ) (tops bots : List Dot) (ls : LoopState)
    (i : ℕ) (cos : ℝ) (v : Vec) (t b : Dot)
    (h1 : ¬(i + 1 < tops.length ∧
      is_hatch_horizontal (tops.getD (i + 1) (0, 0)).2 (bots.getD (i + 1) (0, 0)).2))
    (h2 : cos ≤ cfg) :
    processStep cfg tops bots ls (i, (cos, v), (t, b)) =
      { ls with
        rows := updateLast ls.rows (fun r => add_hatch r
          (if ls.is_prev_horizontal then
            Vec.mk (final_vector (ls.rows.getLastD junkRow)).end_ v.end_ else v) t b),
        is_added := false, is_prev_horizontal := false } := by
  simp only [processStep]
  rw [if_neg h1, if_pos h2]

theorem processStep_else_eq (cfg : ℝ) (tops bots : List Dot) (ls : LoopState)
    (i : ℕ) (cos : ℝ) (v : Vec) (t b : Dot)
    (h1 : ¬(i + 1 < tops.length ∧
      is_hatch_horizontal (tops.getD (i + 1) (0, 0)).2 (bots.getD (i + 1) (0, 0)).2))
    (h2 : ¬cos ≤ cfg) :
    processStep cfg tops bots ls (i, (cos, v), (t, b)) =
      { ls with
        rows := (processHatchNotCurrentRow ls.rows ls.row_id v t b).2.2,
        row_id := (processHatchNotCurrentRow ls.rows ls.row_id v t b).2.1,
        is_added := (processHatchNotCurrentRow ls.rows ls.row_id v t b).1,
        ever_absorbed := ls.ever_absorbed ||
          (processHatchNotCurrentRow ls.rows ls.row_id v t b).1 } := by
  simp only [processStep]
  rw [if_neg h1, if_neg h2]

theorem processHatch_notfound_eq (rows : List MatrixRow) (rid : ℕ) (v : Vec)
    (t b : Dot) (hfound : findAbsorbingRow v.end_ rows = false) :
    processHatchNotCurrentRow rows rid v t b =
      (false, rid + 1, updateLast rows (fun r => updateBottom (updateTop r t) b) ++
        [{ index := rid + 1, vectors_list := [⟨v.end_, v.end_⟩] }]) := by
  simp only [processHatchNotCurrentRow]
  rw [if_neg (by simp [hfound])]

theorem processStep_preserves (cfg : ℝ) (tops bots : List Dot) (ls : LoopState)
    (it : ℕ × (ℝ × Vec) × Dot × Dot)
    (hrows : RowsChained ls.rows)
    (hlast : ls.is_prev_horizontal = false → lastRowEnd ls = it.2.1.2.begin)
    (hever : (processStep cfg tops bots ls it).ever_absorbed = false) :
    RowsChained (processStep cfg tops bots ls it).rows ∧
      ((processStep cfg tops bots ls it).is_prev_horizontal = false →
        lastRowEnd (processStep cfg tops bots ls it) = it.2.1.2.end_) := by
  obtain ⟨i, ⟨cos, v⟩, t, b⟩ := it
  obtain ⟨hrne, hrall⟩ := hrows
  by_cases h1 : i + 1 < tops.length ∧
      is_hatch_horizontal (tops.getD (i + 1) (0, 0)).2 (bots.getD (i + 1) (0, 0)).2
  · rw [processStep_skip_eq cfg tops bots ls i cos v t b h1]
    refine ⟨⟨hrne, hrall⟩, ?_⟩
    intro hfalse
    simp at hfalse
  · by_cases h2 : cos ≤ cfg
    · rw [processStep_cont_eq cfg tops bots ls i cos v t b h1 h2]
      set v' := (if ls.is_prev_horizontal then
          Vec.mk (final_vector (ls.rows.getLastD junkRow)).end_ v.end_ else v) with hv'
      have hvend : v'.end_ = v.end_ := by
        rw [hv']; split_ifs <;> rfl
      have hbeg : v'.begin = ((ls.rows.getLastD junkRow).vectors_list.getLastD junkVec).end_ := by
        rw [hv']
        by_cases hph : ls.is_prev_horizontal
        · rw [if_pos hph]; rfl
        · rw [if_neg hph]
          have := hlast (by simpa using hph)
          unfold lastRowEnd at this
          exact this.symm
      have hlch := hrall (ls.rows.getLastD junkRow) (getLastD_mem _ _ hrne)
      have hadd := add_hatch_chain (ls.rows.getLastD junkRow) v' t b hlch.1 hlch.2 hbeg
      refine ⟨⟨by simp [updateLast], ?_⟩, ?_⟩
      · intro r hr
        unfold updateLast at hr
        rcases List.mem_append.mp hr with hr | hr
        · exact hrall r (List.dropLast_subset _ hr)
        · rw [List.mem_singleton.mp hr]
          exact ⟨hadd.1, hadd.2.1⟩
      · intro _
        unfold lastRowEnd updateLast
        dsimp only
        rw [List.getLastD_concat, hadd.2.2, hvend]
    · have hfound : findAbsorbingRow v.end_ ls.rows = false := by
        by_cases hf : findAbsorbingRow v.end_ ls.rows
        · exfalso
          rw [processStep_else_eq cfg tops bots ls i cos v t b h1 h2] at hever
          simp only [processHatchNotCurrentRow] at hever
          rw [if_pos hf] at hever
          simp at hever
        · simpa using hf
      rw [processStep_else_eq cfg tops bots ls i cos v t b h1 h2,
        processHatch_notfound_eq ls.rows ls.row_id v t b hfound]
      refine ⟨⟨by simp, ?_⟩, ?_⟩
      · intro r hr
        dsimp only at hr
        rcases List.mem_append.mp hr with hr | hr
        · unfold updateLast at hr
          rcases List.mem_append.mp hr with hr | hr
          · exact hrall r (List.dropLast_subset _ hr)
          · rw [List.mem_singleton.mp hr]
            have hlch := hrall (ls.rows.getLastD junkRow) (getLastD_mem _ _ hrne)
            unfold ChainRow
            rw [updateBottom_vectors_list, updateTop_vectors_list]
            exact hlch
        · rw [List.mem_singleton.mp hr]
          exact ⟨List.chain'_singleton _, by simp⟩
      · intro _
        unfold lastRowEnd
        dsimp only
        rw [List.getLastD_concat]
        rfl

theorem processLoop_chain_aux (cfg : ℝ) (tops bots : List Dot) :
    ∀ (items : List (ℕ × (ℝ × Vec) × Dot × Dot)) (p : Dot) (ls : LoopState),
      ChainedItems p items →
      RowsChained ls.rows →
      (ls.is_prev_horizontal = false → lastRowEnd ls = p) →
      (items.foldl (processStep cfg tops bots) ls).ever_absorbed = false →
      RowsChained (items.foldl (processStep cfg tops bots) ls).rows := by
  intro items
  induction items with
  | nil => intro p ls _ hrows _ _; exact hrows
  | cons it its ih =>
      intro p ls hch hrows hlast hever
      rw [List.foldl_cons] at hever ⊢
      obtain ⟨hbeg, hchtail⟩ := hch
      have hever1 : (processStep cfg tops bots ls it).ever_absorbed = false :=
        foldl_ever_mono cfg tops bots its _ hever
      have hstep := processStep_preserves cfg tops bots ls it hrows
        (fun hph => (hlast hph).trans hbeg.symm) hever1
      exact ih it.2.1.2.end_ _ hchtail hstep.1 hstep.2 hever

theorem chainTail_chained (p : Dot) (ms : List Dot) : ChainedVecs p (chainTail p ms) := by
  induction ms generalizing p with
  | nil => trivial
  | cons m t ih => exact ⟨rfl, ih m⟩

theorem chainedItems_of_zip :
    ∀ (vs : List Vec) (cs : List ℝ) (tb : List (Dot × Dot)) (k : ℕ) (p : Dot),
      ChainedVecs p vs → cs.length = vs.length →
      ChainedItems p (((cs.zip vs).zip tb).enumFrom k) := by
  intro vs
  induction vs with
  | nil =>
      intro cs tb k p _ hlen
      have hcs : cs = [] := List.length_eq_zero.mp (by rw [hlen]; rfl)
      rw [hcs]
      trivial
  | cons v vs ih =>
      intro cs tb k p hch hlen
      cases cs with
      | nil => simp at hlen
      | cons c cs' =>
          cases tb with
          | nil => trivial
          | cons x tb' =>
              exact ⟨hch.1, ih cs' tb' (k + 1) v.end_ hch.2 (by simpa using hlen)⟩

theorem stepItems_chained (hs : List Hatch) :
    ChainedItems ((ingest hs).vectors.headD junkVec).end_ (stepItems (ingest hs)) := by
  obtain ⟨hv, _, _, hc⟩ := ingest_spec hs
  unfold stepItems
  rw [hv, hc]
  cases hm : hs.map middleOf with
  | nil => trivial
  | cons m ms =>
      show ChainedItems ((chainVecs (m :: ms)).headD junkVec).end_ _
      have hlen : ((((chainVecs (m :: ms)).drop 1).map
          (fun v => get_angle_between_vectors v xAxisVec))).length =
          ((chainVecs (m :: ms)).drop 1).length := List.length_map _ _
      exact chainedItems_of_zip ((chainVecs (m :: ms)).drop 1) _ _ 0 m
        (chainTail_chained m ms) hlen

theorem process_rows_eq (cfg : ℝ) (st : RMState) :
    (process cfg st).rows =
      if (processLoop cfg st).is_added then (processLoop cfg st).rows
      else updateLast (processLoop cfg st).rows (fun r =>
        updateBottom (updateTop r (st.top_list.getLastD (0, 0)))
          (st.bottom_list.getLastD (0, 0))) := by
  simp only [process]

/-- Amended C1: for every nonempty stroke stream in which no stroke is ever
matched to an existing row by `_process_hatch_not_current_row` (the
`ever_absorbed` ghost flag stays false), every row returned by `process` has a
contiguous `vectors_list` chain.  The restriction is forced: a stroke absorbed
into an earlier row is dropped, and the next vector appended to the current
row then begins at the dropped stroke's middle dot, breaking the chain (see
the counterexample). -/
theorem C1_amended_chain (cfg : ℝ) (hs : List Hatch) (_hne : hs ≠ [])
    (hnoabs : (processLoop cfg (ingest hs)).ever_absorbed = false) :
    ∀ r ∈ (process cfg (ingest hs)).rows, ChainRow r := by
  have hinit_rows : RowsChained (initLoopState (ingest hs)).rows := by
    refine ⟨by simp [initLoopState], ?_⟩
    intro r hr
    have hreq : r = { index := 0, vectors_list := [(ingest hs).vectors.headD junkVec] } := by
      simpa [initLoopState] using hr
    rw [hreq]
    exact ⟨List.chain'_singleton _, by simp⟩
  have hinit_last : (initLoopState (ingest hs)).is_prev_horizontal = false →
      lastRowEnd (initLoopState (ingest hs)) = ((ingest hs).vectors.headD junkVec).end_ := by
    intro _
    rfl
  have hmain := processLoop_chain_aux cfg (ingest hs).top_list (ingest hs).bottom_list
    (stepItems (ingest hs)) ((ingest hs).vectors.headD junkVec).end_
    (initLoopState (ingest hs)) (stepItems_chained hs) hinit_rows hinit_last hnoabs
  intro r hr
  rw [process_rows_eq] at hr
  split_ifs at hr
  · exact (hmain.2 r hr).1
  · unfold updateLast at hr
    rcases List.mem_append.mp hr with hr | hr
    · exact (hmain.2 r (List.dropLast_subset _ hr)).1
    · rw [List.mem_singleton.mp hr]
      have hlch := hmain.2 ((processLoop cfg (ingest hs)).rows.getLastD junkRow)
        (getLastD_mem _ _ hmain.1)
      unfold ChainRow
      rw [updateBottom_vectors_list, updateTop_vectors_list]
      exact hlch.1

/-- The ingested state of the two-hatch witness stream. -/
theorem c1w_state :
    (ingest c1wHatches).vectors = [⟨(0, 0), (0, 0)⟩, ⟨(0, 0), (0, 100)⟩] ∧
    (ingest c1wHatches).top_list = [(10, 60), (5, 160)] ∧
    (ingest c1wHatches).bottom_list = [(10, -60), (5, 40)] ∧
    (ingest c1wHatches).cos_list = [0] := by
  obtain ⟨hv, ht, hb, hc⟩ := ingest_spec c1wHatches
  have hmid : c1wHatches.map middleOf = [((0 : ℝ), (0 : ℝ)), (0, 100)] := by
    simp [c1wHatches, middleOf]
    norm_num
  refine ⟨?_, ?_, ?_, ?_⟩
  · rw [hv, hmid]; simp [chainVecs, chainTail]
  · rw [ht]; simp [c1wHatches]
  · rw [hb]; simp [c1wHatches]
  · rw [hc, hmid]
    simp [chainVecs, chainTail]
    exact cos_vertical 0 0 100

/-- The loop stream of the two-hatch witness run. -/
theorem c1w_items :
    stepItems (ingest c1wHatches) =
      [(0, ((0 : ℝ), ⟨(0, 0), (0, 100)⟩), (((10 : ℝ), (60 : ℝ)), ((10 : ℝ), (-60 : ℝ))))] := by
  obtain ⟨hv, ht, hb, hc⟩ := c1w_state
  unfold stepItems
  rw [hv, ht, hb, hc]
  rfl

/-- Witness for the amended C1 at the concrete two-hatch stream: no hatch is
ever matched to an existing row, and every returned row is a contiguous
chain. -/
theorem C1_amended_chain_witness :
    c1wHatches ≠ [] ∧
    (processLoop (1 / 2) (ingest c1wHatches)).ever_absorbed = false ∧
    ∀ r ∈ (process (1 / 2) (ingest c1wHatches)).rows, ChainRow r := by
  have hne : c1wHatches ≠ [] := by simp [c1wHatches]
  have hnoabs : (processLoop (1 / 2) (ingest c1wHatches)).ever_absorbed = false := by
    obtain ⟨hv, ht, hb, hc⟩ := c1w_state
    unfold processLoop
    rw [c1w_items, ht, hb]
    simp only [List.foldl_cons, List.foldl_nil]
    norm_num [processStep, is_hatch_horizontal, initLoopState]
  exact ⟨hne, hnoabs, C1_amended_chain (1 / 2) c1wHatches hne hnoabs⟩

theorem angle_v2 :
    get_angle_between_vectors ⟨((200 : ℝ), (100 : ℝ)), ((300 : ℝ), (100 : ℝ))⟩ xAxisVec = 1 := by
  unfold get_angle_between_vectors vecDx vecDy xAxisVec get_dist_between_dots
  norm_num [sqrt_10000, Real.sqrt_one]

theorem angle_v3 :
    get_angle_between_vectors ⟨((300 : ℝ), (100 : ℝ)), ((0 : ℝ), (100 : ℝ))⟩ xAxisVec = -1 := by
  unfold get_angle_between_vectors vecDx vecDy xAxisVec get_dist_between_dots
  norm_num [sqrt_90000, Real.sqrt_one]

theorem angle_v4 :
    get_angle_between_vectors ⟨((0 : ℝ), (100 : ℝ)), ((200 : ℝ), (250 : ℝ))⟩ xAxisVec = 4 / 5 := by
  unfold get_angle_between_vectors vecDx vecDy xAxisVec get_dist_between_dots
  norm_num [sqrt_62500, Real.sqrt_one]

theorem sqrt_8500_ge : (40 : ℝ) ≤ Real.sqrt 8500 := by
  rw [show (40 : ℝ) = Real.sqrt 1600 from (sqrt_of_sq (by norm_num) (by norm_num)).symm]
  exact Real.sqrt_le_sqrt (by norm_num)

theorem angle_v5_cond :
    (get_angle_between_vectors ⟨((200 : ℝ), (250 : ℝ)), ((220 : ℝ), (160 : ℝ))⟩ xAxisVec ≤
      1 / 2) = True := by
  apply eq_true
  unfold get_angle_between_vectors vecDx vecDy xAxisVec get_dist_between_dots
  norm_num [Real.sqrt_one]
  have hpos : (0 : ℝ) < Real.sqrt 8500 := Real.sqrt_pos.mpr (by norm_num)
  rw [div_le_iff₀ hpos]
  linarith [sqrt_8500_ge]

/-- The ingested state of the six-hatch counterexample stream. -/
theorem ce1_state :
    (ingest ce1Hatches).vectors =
      [⟨(200, 0), (200, 0)⟩, ⟨(200, 0), (200, 100)⟩, ⟨(200, 100), (300, 100)⟩,
       ⟨(300, 100), (0, 100)⟩, ⟨(0, 100), (200, 250)⟩, ⟨(200, 250), (220, 160)⟩] ∧
    (ingest ce1Hatches).top_list =
      [(190, 60), (195, 160), (310, 160), (5, 160), (210, 310), (260, 220)] ∧
    (ingest ce1Hatches).bottom_list =
      [(190, -60), (195, 40), (310, 40), (5, 40), (210, 190), (260, 100)] ∧
    (ingest ce1Hatches).cos_list =
      [0, 1, -1, 4 / 5,
        get_angle_between_vectors ⟨((200 : ℝ), (250 : ℝ)), ((220 : ℝ), (160 : ℝ))⟩ xAxisVec] := by
  obtain ⟨hv, ht, hb, hc⟩ := ingest_spec ce1Hatches
  have hmid : ce1Hatches.map middleOf =
      [((200 : ℝ), (0 : ℝ)), (200, 100), (300, 100), (0, 100), (200, 250), (220, 160)] := by
    simp [ce1Hatches, middleOf]
    norm_num
  refine ⟨?_, ?_, ?_, ?_⟩
  · rw [hv, hmid]; simp [chainVecs, chainTail]
  · rw [ht]; simp [ce1Hatches]
  · rw [hb]; simp [ce1Hatches]
  · rw [hc, hmid]
    simp [chainVecs, chainTail, cos_vertical, angle_v2, angle_v3, angle_v4]

/-- The loop stream of the six-hatch counterexample run. -/
theorem ce1_items :
    stepItems (ingest ce1Hatches) =
      [(0, ((0 : ℝ), ⟨(200, 0), (200, 100)⟩), (((190 : ℝ), (60 : ℝ)), ((190 : ℝ), (-60 : ℝ)))),
       (1, ((1 : ℝ), ⟨(200, 100), (300, 100)⟩), (((195 : ℝ), (160 : ℝ)), ((195 : ℝ), (40 : ℝ)))),
       (2, ((-1 : ℝ), ⟨(300, 100), (0, 100)⟩), (((310 : ℝ), (160 : ℝ)), ((310 : ℝ), (40 : ℝ)))),
       (3, ((4 / 5 : ℝ), ⟨(0, 100), (200, 250)⟩), (((5 : ℝ), (160 : ℝ)), ((5 : ℝ), (40 : ℝ)))),
       (4, ((get_angle_between_vectors ⟨((200 : ℝ), (250 : ℝ)), ((220 : ℝ), (160 : ℝ))⟩ xAxisVec),
          ⟨(200, 250), (220, 160)⟩), (((210 : ℝ), (310 : ℝ)), ((210 : ℝ), (190 : ℝ))))] := by
  obtain ⟨hv, ht, hb, hc⟩ := ce1_state
  unfold stepItems
  rw [hv, ht, hb, hc]
  rfl

/-- Counterexample to C1: in the six-hatch run, hatch 4's vector
`(0,100) → (200,250)` exceeds the cosine threshold but ends on row 0's band,
so it is matched to row 0 and dropped; the following continuation vector
`(200,250) → (220,160)` is then appended to row 1, whose previous vector ends
at `(0,100)` — the returned row 1 is not a contiguous chain. -/
theorem C1_counterexample :
    ¬ ChainRow ((process (1 / 2) (ingest ce1Hatches)).rows.getD 1 junkRow) := by
  obtain ⟨hv, ht, hb, hc⟩ := ce1_state
  unfold process processLoop initLoopState
  rw [ce1_items, ht, hb, hv]
  simp only [List.foldl_cons, List.foldl_nil]
  norm_num [processStep, processHatchNotCurrentRow, findAbsorbingRow,
    is_dot_inside_row, is_hatch_horizontal, updateLast, add_hatch, updateTop,
    updateBottom, final_vector, get_dist_to_straight, get_dist_between_dots,
    get_triangle_square, junkRow, junkVec, sqrt_10000, sqrt_90000, sqrt_62500,
    angle_v5_cond, abs_of_nonneg, abs_of_nonpos, ChainRow, List.chain'_cons,
    List.chain'_nil]

end

end Thesis
